import Mathlib

/-!
Shallow embedding of src/index/field_range_index.cc (the gamma multi-field
range/tag index) and proofs about the claims of the specification.

Conventions of the embedding:
* C `int` values (doc ids, sizes, bounds) are modelled as `Int`.  The source
  arithmetic stays inside the `int` range for the doc-id ranges considered in
  the theorems (hypotheses bound doc ids by `2^29`), so no wrap-around is
  modelled.
* A bitmap buffer is a list of 64-bit words (`BM_OPERATE_TYPE` is `long`);
  bit `i` of the buffer is bit `i % 64` of word `i / 64`, matching the
  little-endian word layout the source relies on when it casts `char *` to
  `long *`.  Words are `Nat`; only the low 64 bits are ever set.
* The external collaborators that live in headers not present under src/
  (bitmap primitives, RangeQueryResult, the B-tree keyed store, the queues)
  are modelled from the spec, as marked on each definition.
* Allocation failure paths (`bitmap::create` returning non-zero) are not
  modelled; allocation always succeeds.
* The floating comparisons `density < 0.08` and `density > 0.1` are modelled
  as the exact rational comparisons `100*size < 8*offset` and
  `10*size > offset`; these agree with the double computation except when
  `size/offset` is within one ulp of the constant, and all concrete inputs
  used below are far from the thresholds.
-/

namespace TigGamma

/-- Modelled from the spec: bitmap primitive bit read (§6).  Bit `i` of a
word-array bitmap is bit `i % 64` of word `i / 64`; reading beyond the
allocated words gives `false`. -/
def getBit (ws : List Nat) (i : Nat) : Bool :=
  (ws.getD (i / 64) 0).testBit (i % 64)

/-- Modelled from the spec: bitmap primitive `create(n_bits)` (§6): a zeroed
bitmap.  Every span the source allocates is a whole multiple of 64 bits, so
the buffer is `n/64` whole words. -/
def bitmapCreate (nbits : Int) : List Nat :=
  List.replicate (nbits / 64).toNat 0

/-- Modelled from the spec: bitmap primitive `set(buf, i)` (§6).  A negative
position is out of the buffer in the source (undefined behavior there);
modelled as a no-op, as is a write beyond the allocated words. -/
def bitmapSet (ws : List Nat) (pos : Int) : List Nat :=
  if pos < 0 then ws
  else ws.set (pos.toNat / 64) ((ws.getD (pos.toNat / 64) 0) ||| (1 <<< (pos.toNat % 64)))

/-- Modelled from the spec: bitmap primitive `unset(buf, i)` (§6): clear one
bit.  Clearing is expressed with xor on the set bit so that the words stay
plain naturals. -/
def bitmapUnset (ws : List Nat) (pos : Int) : List Nat :=
  if pos < 0 then ws
  else
    let w := ws.getD (pos.toNat / 64) 0
    ws.set (pos.toNat / 64)
      (if w.testBit (pos.toNat % 64) then w ^^^ (1 <<< (pos.toNat % 64)) else w)

/-- The word-for-word copy loops of `AddDense` and `Intersect`:
for `i` in `[0, n)`, `dst[i + off] = src[i]`. -/
def copyWords (dst src : List Nat) (off n : Nat) : List Nat :=
  (List.range n).foldl (fun d i => d.set (i + off) (src.getD i 0)) dst

/-- The word-for-word OR loops of the search paths:
for `j` in `[0, n)`, `dst[j + off] |= src[j]`. -/
def orWords (dst src : List Nat) (off n : Nat) : List Nat :=
  (List.range n).foldl
    (fun d j => d.set (j + off) ((d.getD (j + off) 0) ||| (src.getD j 0))) dst

/-- The word-for-word AND loops of `Intersect`:
for `k` in `[0, n)`, `dst[k + doff] &= src[k + soff]`. -/
def andWords (dst src : List Nat) (doff soff n : Nat) : List Nat :=
  (List.range n).foldl
    (fun d k => d.set (k + doff) ((d.getD (k + doff) 0) &&& (src.getD (k + soff) 0))) dst

/-- `Node::NodeType`. -/
inductive NodeType
  | Dense
  | Sparse
deriving DecidableEq

/-- The posting-list `Node` of field_range_index.cc.  `data_dense` is the
word-array bitmap; `data_sparse` is the value array, of which the first
`size` entries are live (the C array has `capacity` slots; slots past the
live prefix are uninitialized in the source and are not represented). -/
structure Node where
  min : Int
  max : Int
  min_aligned : Int
  max_aligned : Int
  type : NodeType
  capacity : Int
  size : Int
  data_dense : List Nat
  data_sparse : List Int
deriving DecidableEq

/-- `Node::Node()`. -/
def Node.init : Node :=
  { min := 2147483647, max := -1, min_aligned := 2147483647, max_aligned := -1,
    type := NodeType.Sparse, capacity := 0, size := 0,
    data_dense := [], data_sparse := [] }

/-- `Node::AddDense`.  The reclamation-queue argument only receives the
superseded buffer and does not influence the node, so it is dropped. -/
def Node.AddDense (n : Node) (val : Int) : Node :=
  if n.size = 0 then
    let minA := (val / 64) * 64
    let maxA := (val / 64 + 1) * 64 - 1
    { n with
      min := val, max := val, min_aligned := minA, max_aligned := maxA,
      data_dense := bitmapSet (bitmapCreate (maxA - minA + 1)) (val - minA),
      size := n.size + 1 }
  else if val < n.min_aligned then
    let minA := (val / 64) * 64
    let fresh := bitmapCreate (n.max_aligned - minA + 1)
    let copied := copyWords fresh n.data_dense ((n.min_aligned - minA) / 64).toNat
      ((n.max_aligned - n.min_aligned + 1) / 64).toNat
    { n with
      min := val, min_aligned := minA,
      data_dense := bitmapSet copied (val - minA), size := n.size + 1 }
  else if val > n.max_aligned then
    let maxA := (val / 64 + 1) * 64 * 2 - 1
    let fresh := bitmapCreate (maxA - n.min_aligned + 1)
    let copied := copyWords fresh n.data_dense 0
      ((n.max_aligned - n.min_aligned + 1) / 64).toNat
    { n with
      max := val, max_aligned := maxA,
      data_dense := bitmapSet copied (val - n.min_aligned), size := n.size + 1 }
  else
    { n with
      data_dense := bitmapSet n.data_dense (val - n.min_aligned),
      min := Min.min n.min val, max := Max.max n.max val, size := n.size + 1 }

/-- `Node::AddSparse`.  The capacity-growth branch copies the live prefix into
a fresh buffer; in the list model old and new buffer contents coincide, so
only `capacity` records the growth. -/
def Node.AddSparse (n : Node) (val : Int) : Node :=
  let minA := if val < n.min_aligned then (val / 64) * 64 else n.min_aligned
  let maxA := if val > n.max_aligned then (val / 64 + 1) * 64 - 1 else n.max_aligned
  let cap := if n.capacity = 0 then 1
    else if n.size ≥ n.capacity then n.capacity * 2 else n.capacity
  { n with
    min := Min.min n.min val, max := Max.max n.max val,
    min_aligned := minA, max_aligned := maxA, capacity := cap,
    data_sparse := n.data_sparse.take n.size.toNat ++ [val],
    size := n.size + 1 }

/-- `Node::ConvertToSparse`: walk the bits of the span, recording set
positions plus `min_aligned`; the source stops recording at `size` entries
(the allocated array length), hence the `take`. -/
def Node.ConvertToSparse (n : Node) : Node :=
  let positions := ((List.range (n.max_aligned - n.min_aligned + 1).toNat).filter
      (fun i => getBit n.data_dense i)).map (fun (i : Nat) => n.min_aligned + (i : Int))
  { n with
    type := NodeType.Sparse, capacity := n.size,
    data_sparse := positions.take n.size.toNat, data_dense := [] }

/-- `Node::ConvertToDense`: set the bit of every live sparse value inside the
span; values outside the span are skipped with a warning. -/
def Node.ConvertToDense (n : Node) : Node :=
  let ws := (n.data_sparse.take n.size.toNat).foldl
    (fun ws v => if v < n.min_aligned ∨ n.max_aligned < v then ws
      else bitmapSet ws (v - n.min_aligned))
    (bitmapCreate (n.max_aligned - n.min_aligned + 1))
  { n with
    type := NodeType.Dense, data_dense := ws, data_sparse := [] }

/-- `Node::Add`: evaluate the representation policy on the pre-insert state,
convert if it triggers, then insert into the (new) representation. -/
def Node.Add (n : Node) (val : Int) : Node :=
  if n.type = NodeType.Dense then
    if n.max - n.min > 100000 ∧ 100 * n.size < 8 * (n.max - n.min) then
      (n.ConvertToSparse).AddSparse val
    else n.AddDense val
  else
    if n.max - n.min > 100000 ∧ 10 * n.size > n.max - n.min then
      (n.ConvertToDense).AddDense val
    else n.AddSparse val

/-- `Node::DeleteDense`: error iff `val` is outside the aligned span; inside
the span the bit is cleared and `size` decremented whether or not the bit was
set. -/
def Node.DeleteDense (n : Node) (val : Int) : Int × Node :=
  if val - n.min_aligned < 0 ∨ val > n.max_aligned then (-1, n)
  else
    (0, { n with
          size := n.size - 1,
          data_dense := bitmapUnset n.data_dense (val - n.min_aligned) })

/-- `Node::DeleteSparse`: linear scan of the live prefix; on a hit the tail is
shifted down one slot (so the first occurrence is erased) and `size`
decremented. -/
def Node.DeleteSparse (n : Node) (val : Int) : Int × Node :=
  let live := n.data_sparse.take n.size.toNat
  if val ∈ live then
    (0, { n with
          size := n.size - 1, data_sparse := live.erase val })
  else (-1, n)

/-- `Node::Delete`. -/
def Node.Delete (n : Node) (val : Int) : Int × Node :=
  if n.type = NodeType.Dense then n.DeleteDense val else n.DeleteSparse val

/-- The set of doc ids a node currently stores, as the search paths read it:
a Dense node holds `d` iff bit `d - min_aligned` of the bitmap is set with
`d` in the aligned span; a Sparse node holds `d` iff `d` is among the live
entries. -/
def Node.mem (n : Node) (d : Int) : Bool :=
  match n.type with
  | NodeType.Dense =>
      decide (n.min_aligned ≤ d) && decide (d ≤ n.max_aligned) &&
        getBit n.data_dense (d - n.min_aligned).toNat
  | NodeType.Sparse => (n.data_sparse.take n.size.toNat).contains d

/-- Number of set bits of a word-array bitmap. -/
def countBits (ws : List Nat) : Nat :=
  ((List.range (ws.length * 64)).filter (fun p => getBit ws p)).length

/-- Modelled from the spec: `RangeQueryResult` (§4.E), declared in the header
that is not under src/: a range-bounded bitmap `{min_aligned, max_aligned,
bitmap, doc_num}`; `SetRange`/`Resize` produce a zeroed whole-word bitmap
over the span, `Size()` is `max_aligned - min_aligned + 1`, `Ref` exposes the
buffer. -/
structure RangeQueryResult where
  min_aligned : Int
  max_aligned : Int
  words : List Nat
  doc_num : Int
deriving DecidableEq

instance : Inhabited RangeQueryResult :=
  ⟨{ min_aligned := 0, max_aligned := 0, words := [], doc_num := 0 }⟩

/-- Bit `d` (absolute doc id) of a result bitmap. -/
def RangeQueryResult.bit (r : RangeQueryResult) (d : Int) : Bool :=
  decide (r.min_aligned ≤ d) && decide (d ≤ r.max_aligned) &&
    getBit r.words (d - r.min_aligned).toNat

/-- Bit `d` of a search return value: a search that returned without touching
the output (the `none` case) has no bits. -/
def resultBit (p : Int × Option RangeQueryResult) (d : Int) : Bool :=
  match p.2 with
  | none => false
  | some r => r.bit d

/-- `ReverseEndian`: reverse the key bytes, then add `0x80` to the first
output byte in unsigned-char (mod 256) arithmetic.  `len = 0` writes out of
bounds in the source; modelled as the empty output. -/
def ReverseEndian (l : List Nat) : List Nat :=
  match l.reverse with
  | [] => []
  | b :: rest => ((b + 128) % 256) :: rest

/-- Byte-lexicographic comparison of keys, a shorter key that is a proper
head of the other comparing smaller (the order the keyed store maintains). -/
def keyLe : List Nat → List Nat → Bool
  | [], _ => true
  | _ :: _, [] => false
  | a :: as, b :: bs => if a < b then true else if b < a then false else keyLe as bs

/-- Key splitting for tag fields: split on the delimiter byte and drop empty
tokens (`strtok_r` in Add/Delete, `utils::split` per spec §4.D in Search). -/
def splitTokens (delim : Nat) (l : List Nat) : List (List Nat) :=
  (l.foldr (fun b acc =>
    match acc with
    | [] => if b = delim then [[]] else [[b]]
    | cur :: rest =>
      if b = delim then [] :: (cur :: rest) else (b :: cur) :: rest) [])
    |>.filter (fun t => t ≠ [])

/-- The per-field index.  Modelled from the spec for the part that is not
under src/: the keyed store (§4.C) is an ordered map from key bytes to Node
pointers; it is modelled as an association list with distinct keys, the range
scan filtering by the byte-lexicographic order the store maintains (the
search folds and the result assembly are insensitive to enumeration
order). -/
structure FieldRangeIndex where
  is_numeric : Bool
  kDelim : Nat
  store : List (List Nat × Node)

/-- The `InsertToBt` closure of `FieldRangeIndex::Add`: find-or-create the
node of a derived key, then `Node::Add`. -/
def insertToStore (store : List (List Nat × Node)) (k : List Nat) (value : Int) :
    List (List Nat × Node) :=
  if (store.lookup k).isSome then
    store.map (fun e => if e.1 = k then (e.1, e.2.Add value) else e)
  else store ++ [(k, Node.init.Add value)]

/-- The `DeleteFromBt` closure of `FieldRangeIndex::Delete`: find the node of
a derived key and `Node::Delete`; a missing key is logged and skipped. -/
def deleteFromStore (store : List (List Nat × Node)) (k : List Nat) (value : Int) :
    List (List Nat × Node) :=
  store.map (fun e => if e.1 = k then (e.1, (e.2.Delete value).2) else e)

/-- `FieldRangeIndex::Add`: numeric keys are normalized with `ReverseEndian`;
string keys are split on the delimiter and each token inserted. -/
def FieldRangeIndex.Add (fri : FieldRangeIndex) (key : List Nat) (value : Int) :
    FieldRangeIndex :=
  if fri.is_numeric then
    { fri with store := insertToStore fri.store (ReverseEndian key) value }
  else
    { fri with
      store := (splitTokens fri.kDelim key).foldl
        (fun s t => insertToStore s t value) fri.store }

/-- `FieldRangeIndex::Delete`. -/
def FieldRangeIndex.Delete (fri : FieldRangeIndex) (key : List Nat) (value : Int) :
    FieldRangeIndex :=
  if fri.is_numeric then
    { fri with store := deleteFromStore fri.store (ReverseEndian key) value }
  else
    { fri with
      store := (splitTokens fri.kDelim key).foldl
        (fun s t => deleteFromStore s t value) fri.store }

/-- The B-tree cursor scan of the numeric search: every stored node whose
normalized key lies in `[key_l, key_u]`. -/
def collectNodes (store : List (List Nat × Node)) (key_l key_u : List Nat) :
    List Node :=
  (store.filter (fun e => keyLe key_l e.1 && keyLe e.1 key_u)).map (fun e => e.2)

/-- One iteration of the result-assembly loop of the numeric search
(lines 720-756 of the source): Dense nodes are OR-ed in word-by-word at their
word offset, Sparse nodes set bits one at a time at `val - min_aligned` of
the output; the guards are the `continue` conditions of the source. -/
def assembleNum (min_doc max_doc min_aligned max_aligned : Int)
    (acc : List Nat × Int) (n : Node) : List Nat × Int :=
  match n.type with
  | NodeType.Dense =>
      if n.min_aligned < min_aligned ∨ n.max_aligned > max_aligned then acc
      else (orWords acc.1 n.data_dense ((n.min_aligned - min_aligned) / 64).toNat
              ((n.max_aligned - n.min_aligned + 1) / 64).toNat,
            acc.2 + n.size)
  | NodeType.Sparse =>
      if n.min < min_doc ∨ n.max > max_doc then acc
      else ((n.data_sparse.take n.size.toNat).foldl
              (fun ws v => bitmapSet ws (v - min_aligned)) acc.1,
            acc.2 + n.size)

/-- `FieldRangeIndex::Search(lower, upper, result)`, numeric branch.  Returns
the int return value together with the assembled result (`none` when the
search returns before touching the output). -/
def FieldRangeIndex.SearchNum (fri : FieldRangeIndex) (lower upper : List Nat) :
    Int × Option RangeQueryResult :=
  let key_l := ReverseEndian lower
  let key_u := ReverseEndian upper
  let lists := collectNodes fri.store key_l key_u
  let min_doc := lists.foldl (fun (a : Int) n => Min.min a n.min) 2147483647
  let min_aligned := lists.foldl (fun (a : Int) n => Min.min a n.min_aligned) 2147483647
  let max_doc := lists.foldl (fun (a : Int) n => Max.max a n.max) 0
  let max_aligned := lists.foldl (fun (a : Int) n => Max.max a n.max_aligned) 0
  if max_doc - min_doc + 1 ≤ 0 then (0, none)
  else
    let res := lists.foldl (assembleNum min_doc max_doc min_aligned max_aligned)
      (bitmapCreate (max_aligned - min_aligned + 1), (0 : Int))
    (max_doc - min_doc + 1,
     some { min_aligned := min_aligned, max_aligned := max_aligned,
            words := res.1, doc_num := res.2 : RangeQueryResult })

/-- One iteration of the result-assembly loop of the tag search (lines
827-849): only `nullptr` nodes are skipped; the Sparse branch sets bits at
`val - min_aligned` of the NODE (the local of line 830), not of the
output. -/
def assembleTag (min_doc : Int) (acc : List Nat × Int) (optn : Option Node) :
    List Nat × Int :=
  match optn with
  | none => acc
  | some n =>
    match n.type with
    | NodeType.Dense =>
        (orWords acc.1 n.data_dense ((n.min_aligned - min_doc) / 64).toNat
           ((n.max_aligned - n.min_aligned + 1) / 64).toNat,
         acc.2 + n.size)
    | NodeType.Sparse =>
        ((n.data_sparse.take n.size.toNat).foldl
           (fun ws v => bitmapSet ws (v - n.min_aligned)) acc.1,
         acc.2 + n.size)

/-- `FieldRangeIndex::Search(tags, result)`: union-of-tags search. -/
def FieldRangeIndex.SearchTags (fri : FieldRangeIndex) (tags : List Nat) :
    Int × Option RangeQueryResult :=
  let items := splitTokens fri.kDelim tags
  let nodes := items.map (fun t => fri.store.lookup t)
  let min_doc := nodes.foldl (fun (a : Int) optn =>
    match optn with
    | some n => if n.size > 0 then Min.min a n.min_aligned else a
    | none => a) 2147483647
  let max_doc := nodes.foldl (fun (a : Int) optn =>
    match optn with
    | some n => if n.size > 0 then Max.max a n.max_aligned else a
    | none => a) 0
  if max_doc - min_doc + 1 ≤ 0 then (0, none)
  else
    let res := nodes.foldl (assembleTag min_doc)
      (bitmapCreate (max_doc - min_doc + 1), (0 : Int))
    (res.2,
     some { min_aligned := min_doc, max_aligned := max_doc,
            words := res.1, doc_num := res.2 : RangeQueryResult })

/-- `FieldRangeIndex::Search(lower, upper, result)`: a string field forwards
to the tag search on `lower`. -/
def FieldRangeIndex.Search (fri : FieldRangeIndex) (lower upper : List Nat) :
    Int × Option RangeQueryResult :=
  if fri.is_numeric = false then fri.SearchTags lower
  else fri.SearchNum lower upper

/-- `FieldOperate` kinds (ADD / DELETE). -/
inductive FieldOperateType
  | ADD
  | DELETE
deriving DecidableEq

/-- Modelled from the spec: the mutation-queue element `FieldOperate{kind,
doc_id, field_id}` (§4.F), declared in the missing header. -/
structure FieldOperate where
  type : FieldOperateType
  doc_id : Int
  field_id : Int
deriving DecidableEq

/-- The multi-field coordinator: the per-field registry and the mutation
queue contents (the reclamation queue holds only retired buffers and never
influences results, so it is not carried). -/
structure MultiFieldsRangeIndex where
  fields : List (Option FieldRangeIndex)
  queue : List FieldOperate

/-- `fields_[i]`.  A negative index is an out-of-bounds vector read in the
source whose loaded value is never dereferenced (the guard `filter.field <
0` fires first); modelled as an absent slot. -/
def MultiFieldsRangeIndex.fieldAt (m : MultiFieldsRangeIndex) (i : Int) :
    Option FieldRangeIndex :=
  if i < 0 then none else m.fields.getD i.toNat none

/-- `MultiFieldsRangeIndex::Add`: a null slot returns 0 without enqueueing;
otherwise a FieldOperate is enqueued.  The mutation queue is unbounded (§5),
so enqueue always succeeds and the -1 failure return is dead. -/
def MultiFieldsRangeIndex.Add (m : MultiFieldsRangeIndex) (docid f : Int) :
    Int × MultiFieldsRangeIndex :=
  match m.fieldAt f with
  | none => (0, m)
  | some _ =>
      (0, { m with
            queue := m.queue ++
              [{ type := FieldOperateType.ADD, doc_id := docid, field_id := f }] })

/-- `MultiFieldsRangeIndex::Delete`, same shape as Add. -/
def MultiFieldsRangeIndex.Delete (m : MultiFieldsRangeIndex) (docid f : Int) :
    Int × MultiFieldsRangeIndex :=
  match m.fieldAt f with
  | none => (0, m)
  | some _ =>
      (0, { m with
            queue := m.queue ++
              [{ type := FieldOperateType.DELETE, doc_id := docid, field_id := f }] })

/-- `MultiFieldsRangeIndex::Intersect(results, j, shortest_idx, out)`.
`results[0..j]` are the inputs.  `total` is `results[0].Size()`, which per
§4.E is the SPAN of results[0].  The output is seeded by copying the words of
`results[shortest_idx]` from the start of its buffer, then results `0..j-1`
other than `shortest_idx` are AND-ed in. -/
def MultiFieldsRangeIndex.Intersect (results : List RangeQueryResult) (j : Nat)
    (shortest_idx : Nat) : Int × Option RangeQueryResult :=
  let r0 := results.getD 0 (default : RangeQueryResult)
  let min_doc := (List.range j).foldl (fun md i =>
    let r := results.getD (i + 1) (default : RangeQueryResult)
    if r.min_aligned > md then r.min_aligned else md) r0.min_aligned
  let max_doc := (List.range j).foldl (fun md i =>
    let r := results.getD (i + 1) (default : RangeQueryResult)
    if r.max_aligned < md then r.max_aligned else md) r0.max_aligned
  let total := r0.max_aligned - r0.min_aligned + 1
  if max_doc - min_doc + 1 ≤ 0 then (0, none)
  else
    let ws1 := copyWords (bitmapCreate (max_doc - min_doc + 1))
      (results.getD shortest_idx (default : RangeQueryResult)).words 0 ((max_doc - min_doc + 1) / 64).toNat
    let ws2 := (List.range j).foldl (fun ws i =>
      if i = shortest_idx then ws
      else
        let r := results.getD i (default : RangeQueryResult)
        if r.min_aligned < min_doc then
          let off := ((min_doc - r.min_aligned) / 64).toNat
          if r.max_aligned > max_doc then
            andWords ws r.words 0 off ((max_doc - min_doc + 1) / 64).toNat
          else
            andWords ws r.words 0 off ((r.max_aligned - min_doc + 1) / 64).toNat
        else
          let off := ((r.min_aligned - min_doc) / 64).toNat
          if r.max_aligned > max_doc then
            andWords ws r.words off 0 ((max_doc - min_doc + 1) / 64).toNat
          else
            andWords ws r.words off 0 ((r.max_aligned - min_doc + 1) / 64).toNat) ws1
    (total,
     some { min_aligned := min_doc, max_aligned := max_doc, words := ws2,
            doc_num := total : RangeQueryResult })

/-- A query filter (§6). -/
structure FilterInfo where
  field : Int
  lower_value : List Nat
  upper_value : List Nat
  is_union : Int

/-- The preprocessing loop of `MultiFieldsRangeIndex::Search`: any filter on
an absent slot or a negative field id aborts with `none` (the -1 return);
a string filter with AND semantics is split into one filter per token. -/
def MultiFieldsRangeIndex.preprocess (m : MultiFieldsRangeIndex) :
    List FilterInfo → Option (List FilterInfo)
  | [] => some []
  | f :: rest =>
    match m.fieldAt f.field with
    | none => none
    | some index =>
      match m.preprocess rest with
      | none => none
      | some fs =>
        if index.is_numeric = false ∧ f.is_union = 0 then
          some (((splitTokens index.kDelim f.lower_value).map
            (fun item => { f with lower_value := item })) ++ fs)
        else some (f :: fs)

/-- The per-filter search loop of `MultiFieldsRangeIndex::Search` (lines
1101-1123): a 0-count search short-circuits the query to 0 (the `none`
return); a negative count is ignored; otherwise the result is kept and the
shortest count tracked. -/
def MultiFieldsRangeIndex.searchLoop (m : MultiFieldsRangeIndex) :
    List FilterInfo → List RangeQueryResult → Int → Int →
    Option (List RangeQueryResult × Int)
  | [], acc, _, shortest_idx => some (acc, shortest_idx)
  | f :: rest, acc, shortest, shortest_idx =>
    match m.fieldAt f.field with
    | none => m.searchLoop rest acc shortest shortest_idx
    | some index =>
      let r := index.Search f.lower_value f.upper_value
      if r.1 < 0 then m.searchLoop rest acc shortest shortest_idx
      else if r.1 = 0 then none
      else if shortest > r.1 then
        m.searchLoop rest (acc ++ [r.2.getD default]) r.1 (acc.length : Int)
      else
        m.searchLoop rest (acc ++ [r.2.getD default]) shortest shortest_idx

/-- `MultiFieldsRangeIndex::Search(filters, out)`: preprocessing, the
single-filter fast path, the per-filter loop, then `Intersect`. -/
def MultiFieldsRangeIndex.Search (m : MultiFieldsRangeIndex)
    (origin_filters : List FilterInfo) : Int :=
  match m.preprocess origin_filters with
  | none => -1
  | some filters =>
    match filters with
    | [f] =>
      match m.fieldAt f.field with
      | none => -1
      | some index => (index.Search f.lower_value f.upper_value).1
    | _ =>
      match m.searchLoop filters [] 2147483647 (-1) with
      | none => 0
      | some (acc, shortest_idx) =>
        if acc.length = 0 then -1
        else (MultiFieldsRangeIndex.Intersect acc (acc.length - 1)
          shortest_idx.toNat).1

/-- A single mutation against one Node, for stating sequences of operations. -/
inductive NodeOp
  | add (v : Int)
  | del (v : Int)

/-- Apply one mutation (the int return of Delete is dropped). -/
def Node.applyOp (n : Node) : NodeOp → Node
  | NodeOp.add v => n.Add v
  | NodeOp.del v => (n.Delete v).2

/-- Apply a sequence of mutations. -/
def Node.applyOps (n : Node) (ops : List NodeOp) : Node :=
  ops.foldl Node.applyOp n

/-! Concrete instances used in the claim theorems. -/

/-- A numeric field index with an empty store (delimiter byte 0x01). -/
def friNum : FieldRangeIndex := { is_numeric := true, kDelim := 1, store := [] }

/-- Little-endian int32 key bytes for 42, as the caller supplies them. -/
def key42 : List Nat := [42, 0, 0, 0]

/-- Little-endian int32 key bytes for 50. -/
def key50 : List Nat := [50, 0, 0, 0]

/-- The end-to-end scenario store of claim C2: doc ids 10, 11 and 12 inserted
under key 42 and doc id 1000 under key 50. -/
def friC2 : FieldRangeIndex :=
  ((((friNum.Add key42 10).Add key42 11).Add key42 12).Add key50 1000)

/-- A string-tag field index holding doc 5 under tag "a" and doc 100 under
tag "b". -/
def friC3 : FieldRangeIndex :=
  (({ is_numeric := false, kDelim := 1, store := [] } : FieldRangeIndex).Add
    [97] 5).Add [98] 100

/-- The query bytes for the two tags "a" and "b" joined by the delimiter. -/
def tagsAB : List Nat := [97, 1, 98]

/-- Intersect input: span [0,127] holding docs {60, 100} (doc_num 41). -/
def resultA : RangeQueryResult :=
  { min_aligned := 0, max_aligned := 127, words := [2 ^ 60, 2 ^ 36],
    doc_num := 41 }

/-- Intersect input: span [64,127] holding docs {64, 127} (doc_num 64). -/
def resultB : RangeQueryResult :=
  { min_aligned := 64, max_aligned := 127, words := [2 ^ 0 + 2 ^ 63],
    doc_num := 64 }

/-- A Dense node holding exactly doc id 10, span [0, 63]. -/
def denseTen : Node :=
  { min := 10, max := 10, min_aligned := 0, max_aligned := 63,
    type := NodeType.Dense, capacity := 0, size := 1,
    data_dense := [2 ^ 10], data_sparse := [] }

/-- A Sparse node with 10000 live values spanning [0, 100001]: offset just
above 100000 and density just below the 0.1 conversion threshold. -/
def sparseWide : Node :=
  { min := 0, max := 100001, min_aligned := 0, max_aligned := 100031,
    type := NodeType.Sparse, capacity := 16384, size := 10000,
    data_dense := [],
    data_sparse := (List.range 10000).map
      (fun i => if i = 9999 then 100001 else (i : Int)) }

/-- As sparseWide but with one more live value: density just above 0.1. -/
def sparseWider : Node :=
  { min := 0, max := 100001, min_aligned := 0, max_aligned := 100031,
    type := NodeType.Sparse, capacity := 16384, size := 10001,
    data_dense := [],
    data_sparse := (List.range 10001).map
      (fun i => if i = 10000 then 100001 else (i : Int)) }

/-! Wellformedness of nodes and stores, as maintained by the source
operations (used as hypotheses of the round-trip theorem). -/

/-- Search-relevant wellformedness of a Node: the aligned bounds are
word-aligned, nonnegative and bracket [min, max]; max stays inside the range
where the source int arithmetic cannot overflow; a Dense buffer has exactly
the span's words and holds bits only inside [min, max]; a Sparse node's size
counts its live entries, which all lie in [min, max]. -/
def Node.WFs (n : Node) : Prop :=
  0 ≤ n.min_aligned ∧ n.min_aligned % 64 = 0 ∧ (n.max_aligned + 1) % 64 = 0 ∧
  n.min_aligned ≤ n.min ∧ n.min ≤ n.max ∧ n.max ≤ n.max_aligned ∧
  n.max < 2 ^ 29 ∧
  (n.type = NodeType.Dense →
    n.data_dense.length = ((n.max_aligned - n.min_aligned + 1) / 64).toNat ∧
    ∀ p, p < n.data_dense.length * 64 → getBit n.data_dense p = true →
      n.min ≤ n.min_aligned + (p : Int) ∧ n.min_aligned + (p : Int) ≤ n.max) ∧
  (n.type = NodeType.Sparse →
    n.size = (n.data_sparse.length : Int) ∧
    ∀ v ∈ n.data_sparse, n.min ≤ v ∧ v ≤ n.max)

/-- Full wellformedness of a Node, as the source maintains it for every node
reachable through the documented call protocol: additionally, a Dense node's
size is its bit count and a Sparse node has no duplicate entries. -/
def Node.WF (n : Node) : Prop :=
  n.WFs ∧
  (n.type = NodeType.Dense → n.size = (countBits n.data_dense : Int)) ∧
  (n.type = NodeType.Sparse → n.data_sparse.Nodup)

/-! General lemmas about the bitmap primitives. -/



theorem getBit_def (ws : List Nat) (p : Nat) :
    getBit ws p = (ws.getD (p / 64) 0).testBit (p % 64) := rfl

theorem getD_set (l : List Nat) (i j d a : Nat) :
    (l.set i a).getD j d = if i = j ∧ i < l.length then a else l.getD j d := by
  rw [List.getD_eq_getElem?_getD, List.getD_eq_getElem?_getD, List.getElem?_set]
  by_cases hij : i = j
  · subst hij
    by_cases hi : i < l.length
    · simp [hi]
    · rw [List.getElem?_eq_none (by omega)]
      simp [hi]
  · simp [hij]

theorem getBit_nil (q : Nat) : getBit [] q = false := by
  rw [getBit_def, List.getD_nil]
  exact Nat.zero_testBit _

theorem getBit_beyond (ws : List Nat) (q : Nat) (h : ws.length ≤ q / 64) :
    getBit ws q = false := by
  rw [getBit_def, List.getD_eq_default _ _ h]
  exact Nat.zero_testBit _

theorem getBit_bitmapCreate (nbits : Int) (q : Nat) :
    getBit (bitmapCreate nbits) q = false := by
  rw [getBit_def]
  unfold bitmapCreate
  by_cases h : q / 64 < (nbits / 64).toNat
  · rw [List.getD_eq_getElem _ _ (by simpa using h)]
    simp [Nat.zero_testBit]
  · rw [List.getD_eq_default _ _ (by simpa using h)]
    exact Nat.zero_testBit _

theorem div_mod_eq_iff (p q : Nat) :
    (p / 64 = q / 64 ∧ p % 64 = q % 64) ↔ p = q := by
  constructor
  · rintro ⟨h1, h2⟩
    omega
  · rintro rfl
    exact ⟨rfl, rfl⟩

theorem getBit_set_word (ws : List Nat) (j w q : Nat) :
    getBit (ws.set j w) q =
      if q / 64 = j ∧ j < ws.length then w.testBit (q % 64) else getBit ws q := by
  rw [getBit_def, getBit_def, getD_set]
  by_cases h : j = q / 64 ∧ j < ws.length
  · rw [if_pos h, if_pos ⟨h.1.symm, h.2⟩]
  · rw [if_neg h, if_neg (fun hc => h ⟨hc.1.symm, hc.2⟩)]

theorem length_bitmapSet (ws : List Nat) (pos : Int) :
    (bitmapSet ws pos).length = ws.length := by
  unfold bitmapSet
  split <;> simp

theorem length_bitmapUnset (ws : List Nat) (pos : Int) :
    (bitmapUnset ws pos).length = ws.length := by
  unfold bitmapUnset
  split <;> simp

theorem getBit_bitmapSet (ws : List Nat) (pos : Int) (q : Nat) :
    getBit (bitmapSet ws pos) q =
      (getBit ws q ||
        (decide (0 ≤ pos) && decide (pos.toNat = q) &&
          decide (q / 64 < ws.length))) := by
  unfold bitmapSet
  split
  · next hneg =>
    rw [decide_eq_false (by omega : ¬(0 ≤ pos))]
    simp
  · next hpos =>
    rw [decide_eq_true (by omega : (0 : Int) ≤ pos)]
    rw [getBit_set_word]
    by_cases heq : pos.toNat = q
    · subst heq
      rw [decide_eq_true rfl]
      by_cases hlen : pos.toNat / 64 < ws.length
      · rw [if_pos ⟨rfl, hlen⟩, decide_eq_true hlen]
        rw [Nat.testBit_lor, Nat.shiftLeft_eq, one_mul,
          Nat.testBit_two_pow_self, getBit_def]
        simp
      · rw [if_neg (by tauto), decide_eq_false hlen]
        simp
    · rw [decide_eq_false heq]
      by_cases hw : q / 64 = pos.toNat / 64 ∧ pos.toNat / 64 < ws.length
      · rw [if_pos hw]
        obtain ⟨hw1, _⟩ := hw
        rw [Nat.testBit_lor, Nat.shiftLeft_eq, one_mul]
        have hb : pos.toNat % 64 ≠ q % 64 := by
          intro hcon
          exact heq ((div_mod_eq_iff pos.toNat q).mp ⟨hw1.symm, hcon⟩)
        rw [Nat.testBit_two_pow_of_ne hb]
        rw [show ws.getD (pos.toNat / 64) 0 = ws.getD (q / 64) 0 by rw [hw1]]
        rw [← getBit_def]
        simp
      · rw [if_neg hw]
        simp

theorem getBit_bitmapUnset (ws : List Nat) (pos : Int) (q : Nat) :
    getBit (bitmapUnset ws pos) q =
      (getBit ws q && !(decide (0 ≤ pos) && decide (pos.toNat = q))) := by
  unfold bitmapUnset
  split
  · next hneg =>
    rw [decide_eq_false (by omega : ¬(0 ≤ pos))]
    simp
  · next hpos =>
    rw [decide_eq_true (by omega : (0 : Int) ≤ pos)]
    rw [getBit_set_word]
    by_cases hw : q / 64 = pos.toNat / 64 ∧ pos.toNat / 64 < ws.length
    · rw [if_pos hw]
      obtain ⟨hw1, hw2⟩ := hw
      have hword : ws.getD (pos.toNat / 64) 0 = ws.getD (q / 64) 0 := by rw [hw1]
      by_cases hset : (ws.getD (pos.toNat / 64) 0).testBit (pos.toNat % 64) = true
      · rw [if_pos hset]
        rw [Nat.testBit_xor, Nat.shiftLeft_eq, one_mul]
        by_cases heq : pos.toNat = q
        · subst heq
          rw [Nat.testBit_two_pow_self, decide_eq_true rfl, hset]
          have hbit : getBit ws pos.toNat = true := by
            rw [getBit_def]
            exact hset
          rw [hbit]
          simp
        · have hb : pos.toNat % 64 ≠ q % 64 := by
            intro hcon
            exact heq ((div_mod_eq_iff pos.toNat q).mp ⟨hw1.symm, hcon⟩)
          rw [Nat.testBit_two_pow_of_ne hb, decide_eq_false heq]
          rw [hword, ← getBit_def]
          simp
      · rw [if_neg hset]
        by_cases heq : pos.toNat = q
        · subst heq
          rw [decide_eq_true rfl]
          have hbit : getBit ws pos.toNat = false := by
            rw [getBit_def]
            simpa using hset
          rw [hword, ← getBit_def, hbit]
          simp
        · rw [decide_eq_false heq]
          rw [hword, ← getBit_def]
          simp
    · rw [if_neg hw]
      by_cases heq : pos.toNat = q
      · subst heq
        rw [decide_eq_true rfl]
        have hlen : ws.length ≤ pos.toNat / 64 := by omega
        rw [getBit_beyond ws pos.toNat hlen]
        simp
      · rw [decide_eq_false heq]
        simp

theorem length_copyWords (dst src : List Nat) (off n : Nat) :
    (copyWords dst src off n).length = dst.length := by
  induction n with
  | zero => rfl
  | succ m ih =>
    unfold copyWords
    rw [List.range_succ, List.foldl_append]
    simpa [copyWords] using ih

theorem length_orWords (dst src : List Nat) (off n : Nat) :
    (orWords dst src off n).length = dst.length := by
  induction n with
  | zero => rfl
  | succ m ih =>
    unfold orWords
    rw [List.range_succ, List.foldl_append]
    simpa [orWords] using ih

theorem getBit_copyWords (dst src : List Nat) (off n : Nat) (q : Nat) :
    getBit (copyWords dst src off n) q =
      if off ≤ q / 64 ∧ q / 64 < off + n ∧ q / 64 < dst.length then
        getBit src (q - 64 * off)
      else getBit dst q := by
  induction n with
  | zero =>
    rw [if_neg (by omega)]
    rfl
  | succ m ih =>
    unfold copyWords
    rw [List.range_succ, List.foldl_append]
    have hfold : (List.range m).foldl
        (fun d i => d.set (i + off) (src.getD i 0)) dst = copyWords dst src off m := rfl
    rw [hfold]
    simp only [List.foldl_cons, List.foldl_nil]
    rw [getBit_set_word, length_copyWords]
    by_cases hq : q / 64 = m + off ∧ m + off < dst.length
    · rw [if_pos hq]
      obtain ⟨hq1, hq2⟩ := hq
      rw [if_pos (by omega)]
      have hsrc : (q - 64 * off) / 64 = m := by omega
      have hsrc2 : (q - 64 * off) % 64 = q % 64 := by omega
      rw [getBit_def, hsrc, hsrc2]
    · rw [if_neg hq, ih]
      by_cases hc : off ≤ q / 64 ∧ q / 64 < off + m ∧ q / 64 < dst.length
      · rw [if_pos hc, if_pos (by omega)]
      · rw [if_neg hc, if_neg (by
          intro hcon
          have : q / 64 = m + off := by omega
          exact hq ⟨this, by omega⟩)]

theorem getBit_orWords (dst src : List Nat) (off n : Nat) (q : Nat) :
    getBit (orWords dst src off n) q =
      (getBit dst q ||
        (decide (off ≤ q / 64 ∧ q / 64 < off + n ∧ q / 64 < dst.length) &&
          getBit src (q - 64 * off))) := by
  induction n with
  | zero =>
    rw [decide_eq_false (by omega)]
    simp [orWords]
  | succ m ih =>
    unfold orWords
    rw [List.range_succ, List.foldl_append]
    have hfold : (List.range m).foldl
        (fun d j => d.set (j + off) ((d.getD (j + off) 0) ||| (src.getD j 0))) dst
        = orWords dst src off m := rfl
    rw [hfold]
    simp only [List.foldl_cons, List.foldl_nil]
    rw [getBit_set_word, length_orWords]
    by_cases hq : q / 64 = m + off ∧ m + off < dst.length
    · rw [if_pos hq]
      obtain ⟨hq1, hq2⟩ := hq
      rw [Nat.testBit_lor]
      have hdw : ((orWords dst src off m).getD (m + off) 0).testBit (q % 64)
          = getBit (orWords dst src off m) q := by
        rw [getBit_def, hq1]
      rw [hdw, ih]
      rw [decide_eq_false (show ¬(off ≤ q / 64 ∧ q / 64 < off + m ∧ q / 64 < dst.length) by omega)]
      rw [decide_eq_true (show off ≤ q / 64 ∧ q / 64 < off + (m + 1) ∧ q / 64 < dst.length by omega)]
      have hsrc : (q - 64 * off) / 64 = m := by omega
      have hsrc2 : (q - 64 * off) % 64 = q % 64 := by omega
      rw [getBit_def src, hsrc, hsrc2]
      simp [Bool.or_assoc]
    · rw [if_neg hq, ih]
      by_cases hc : off ≤ q / 64 ∧ q / 64 < off + m ∧ q / 64 < dst.length
      · rw [decide_eq_true hc, decide_eq_true (show off ≤ q / 64 ∧ q / 64 < off + (m + 1) ∧ q / 64 < dst.length by omega)]
      · rw [decide_eq_false hc, decide_eq_false (show ¬(off ≤ q / 64 ∧ q / 64 < off + (m + 1) ∧ q / 64 < dst.length) by
          intro hcon
          have : q / 64 = m + off := by omega
          exact hq ⟨this, by omega⟩)]

/-! Structural facts about the Node operations. -/

theorem AddDense_type (n : Node) (v : Int) : (n.AddDense v).type = n.type := by
  unfold Node.AddDense
  split
  · rfl
  · split
    · rfl
    · split <;> rfl

theorem AddSparse_type (n : Node) (v : Int) : (n.AddSparse v).type = n.type := rfl

theorem ConvertToDense_type (n : Node) : n.ConvertToDense.type = NodeType.Dense := rfl

theorem ConvertToSparse_type (n : Node) : n.ConvertToSparse.type = NodeType.Sparse := rfl

/-! Claim C1. -/

/-- C1: the claimed intersection property fails on the code.  With inputs
resultA (span [0,127], docs {60, 100}, the shortest) and resultB (span
[64,127], docs {64, 127}), min_doc = 64 and max_doc = 127, the output of
Intersect has bit 124 set although neither input holds doc 124 and the true
intersection is empty: the seed copy takes the shortest result's words from
the start of its buffer without the (min_doc - min_aligned)/W word offset,
and the AND loop `for (i = 0; i < j; ++i)` never touches results[j]. -/
theorem C1_intersect_failing_eval :
    resultBit (MultiFieldsRangeIndex.Intersect [resultA, resultB] 1 0) 124 = true ∧
    resultA.bit 124 = false ∧ resultB.bit 124 = false ∧
    resultA.bit 60 = true ∧ resultA.bit 100 = true ∧
    resultB.bit 64 = true ∧ resultB.bit 127 = true ∧
    (MultiFieldsRangeIndex.Intersect [resultA, resultB] 1 0).1 = 128 := by
  decide

/-! Claim C3. -/

/-- C3: the tag-union search does not build the output as the numeric branch
does.  With doc 5 under tag "a" (node span [0,63]) and doc 100 under tag "b"
(node span [64,127]), the output spans [0,127] but holds bits {5, 36}: the
Sparse branch of the tag search sets bits at val - node.min_aligned (100 - 64
= 36) instead of val - out.min_aligned (100 - 0), so bit 100 is clear. -/
theorem C3_tag_search_failing_eval :
    resultBit (friC3.SearchTags tagsAB) 100 = false ∧
    resultBit (friC3.SearchTags tagsAB) 36 = true ∧
    resultBit (friC3.SearchTags tagsAB) 5 = true ∧
    ((friC3.store.lookup [98]).map (fun n => n.mem 100)) = some true ∧
    ((friC3.store.lookup [97]).map (fun n => n.mem 5)) = some true ∧
    (friC3.SearchTags tagsAB).1 = 2 := by
  decide

/-! Claim C4. -/

/-- C4 counterexample: Delete(11) on a Dense node that holds exactly doc 10
(span [0,63]) returns OK (0) although 11 is not in the set, where the claim
requires NotFound. -/
theorem C4_counterexample :
    denseTen.mem 11 = false ∧ (denseTen.Delete 11).1 = 0 := by
  decide

/-- C4 amended: Delete(v) on a Sparse node returns OK exactly when v is among
the live entries (so OK when present, NotFound when absent); on a Dense node
it returns an error exactly when v lies outside the span [min_aligned,
max_aligned] - an in-span v that is NOT in the set still returns OK (and
decrements size). -/
theorem C4_amended (n : Node) (v : Int) :
    (n.type = NodeType.Sparse →
      ((n.Delete v).1 = 0 ↔ v ∈ n.data_sparse.take n.size.toNat)) ∧
    (n.type = NodeType.Dense →
      ((n.Delete v).1 = 0 ↔ (n.min_aligned ≤ v ∧ v ≤ n.max_aligned))) := by
  constructor
  · intro ht
    have hd : n.type ≠ NodeType.Dense := by rw [ht]; intro h; cases h
    unfold Node.Delete
    rw [if_neg hd]
    simp only [Node.DeleteSparse]
    split
    · next hmem => exact iff_of_true rfl hmem
    · next hmem =>
      constructor
      · intro h
        simp at h
      · intro h
        exact absurd h hmem
  · intro ht
    unfold Node.Delete
    rw [if_pos ht]
    unfold Node.DeleteDense
    split
    · next hout =>
      constructor
      · intro h
        simp at h
      · intro h
        omega
    · next hin =>
      constructor
      · intro _
        omega
      · intro _
        rfl

/-- C4 amended witness: deleting the present doc 10 from denseTen succeeds. -/
theorem C4_amended_witness : (denseTen.Delete 10).1 = 0 :=
  ((C4_amended denseTen 10).2 rfl).mpr (by decide)

/-! Claim C5. -/

/-- C5 counterexample: Add(50000) on sparseWide (offset 100001, 10000 live
values, density 0.09999 < 0.1 before the insert) leaves a Sparse node whose
post-insert offset is 100001 > 100000 and whose post-insert density
10001/100001 exceeds 0.10, violating the claimed post-Add policy
`density > 0.10 implies Dense`. -/
theorem C5_counterexample :
    (sparseWide.Add 50000).type = NodeType.Sparse ∧
    (sparseWide.Add 50000).max - (sparseWide.Add 50000).min > 100000 ∧
    10 * (sparseWide.Add 50000).size >
      (sparseWide.Add 50000).max - (sparseWide.Add 50000).min := by
  refine ⟨?_, by decide, by decide⟩
  decide

/-- C5 amended: the representation policy is evaluated on the PRE-insert
state: on Add, when the pre-insert offset = max - min exceeds 100000, a
Sparse node with pre-insert density above 0.10 converts to Dense and a Dense
node with pre-insert density below 0.08 converts to Sparse, and otherwise
the representation is unchanged; the post-insert state can violate the
density bounds by the one just-inserted element. -/
theorem C5_amended (n : Node) (v : Int) :
    (n.type = NodeType.Sparse → n.max - n.min > 100000 →
      10 * n.size > n.max - n.min → (n.Add v).type = NodeType.Dense) ∧
    (n.type = NodeType.Dense → n.max - n.min > 100000 →
      100 * n.size < 8 * (n.max - n.min) → (n.Add v).type = NodeType.Sparse) ∧
    (n.type = NodeType.Sparse →
      ¬(n.max - n.min > 100000 ∧ 10 * n.size > n.max - n.min) →
      (n.Add v).type = NodeType.Sparse) ∧
    (n.type = NodeType.Dense →
      ¬(n.max - n.min > 100000 ∧ 100 * n.size < 8 * (n.max - n.min)) →
      (n.Add v).type = NodeType.Dense) := by
  refine ⟨?_, ?_, ?_, ?_⟩
  · intro ht h1 h2
    have hd : n.type ≠ NodeType.Dense := by rw [ht]; intro h; cases h
    unfold Node.Add
    rw [if_neg hd, if_pos ⟨h1, h2⟩, AddDense_type, ConvertToDense_type]
  · intro ht h1 h2
    unfold Node.Add
    rw [if_pos ht, if_pos ⟨h1, h2⟩, AddSparse_type, ConvertToSparse_type]
  · intro ht hno
    have hd : n.type ≠ NodeType.Dense := by rw [ht]; intro h; cases h
    unfold Node.Add
    rw [if_neg hd, if_neg hno, AddSparse_type, ht]
  · intro ht hno
    unfold Node.Add
    rw [if_pos ht, if_neg hno, AddDense_type, ht]

/-- C5 amended witness: sparseWider (10001 live values over offset 100001,
density above 0.1) converts to Dense on the next Add. -/
theorem C5_amended_witness :
    sparseWider.max - sparseWider.min > 100000 ∧
    10 * sparseWider.size > sparseWider.max - sparseWider.min ∧
    (sparseWider.Add 7).type = NodeType.Dense :=
  ⟨by decide, by decide,
    (C5_amended sparseWider 7).1 rfl (by decide) (by decide)⟩

/-! Claim C6. -/

/-- C6 counterexample: Add(5) then Delete(5) on a fresh node is a sequence of
Add and Delete operations after which size = 0 but min = max = 5, not
min = INT_MAX and max = -1: deletions never reset min and max. -/
theorem C6_counterexample :
    ((Node.init.Add 5).Delete 5).2.size = 0 ∧
    ¬(((Node.init.Add 5).Delete 5).2.min = 2147483647 ∧
      ((Node.init.Add 5).Delete 5).2.max = -1) := by
  decide

theorem applyOps_sparse_size (ops : List NodeOp) : ∀ n : Node,
    n.type = NodeType.Sparse → n.size = (n.data_sparse.length : Int) →
    (∀ k, k ≤ ops.length →
      (n.applyOps (ops.take k)).type = NodeType.Sparse) →
    (n.applyOps ops).type = NodeType.Sparse ∧
    (n.applyOps ops).size = ((n.applyOps ops).data_sparse.length : Int) := by
  induction ops with
  | nil =>
    intro n ht hs _
    exact ⟨ht, hs⟩
  | cons op rest ih =>
    intro n ht hs hpre
    have h1 : (n.applyOp op).type = NodeType.Sparse := by
      have := hpre 1 (by simp)
      simpa [Node.applyOps] using this
    have hstep : (n.applyOp op).type = NodeType.Sparse ∧
        (n.applyOp op).size = ((n.applyOp op).data_sparse.length : Int) := by
      cases op with
      | add v =>
        have hd : n.type ≠ NodeType.Dense := by rw [ht]; intro h; cases h
        have happ : n.applyOp (NodeOp.add v) = n.Add v := rfl
        rw [happ] at h1 ⊢
        unfold Node.Add at h1 ⊢
        rw [if_neg hd] at h1 ⊢
        by_cases hg : n.max - n.min > 100000 ∧ 10 * n.size > n.max - n.min
        · rw [if_pos hg] at h1
          rw [AddDense_type, ConvertToDense_type] at h1
          cases h1
        · rw [if_neg hg] at h1 ⊢
          refine ⟨h1, ?_⟩
          unfold Node.AddSparse
          have hlen : n.data_sparse.take n.size.toNat = n.data_sparse := by
            apply List.take_of_length_le
            omega
          simp only [hlen]
          rw [List.length_append]
          simp only [List.length_cons, List.length_nil]
          omega
      | del v =>
        have hd : n.type ≠ NodeType.Dense := by rw [ht]; intro h; cases h
        have happ : n.applyOp (NodeOp.del v) = (n.Delete v).2 := rfl
        rw [happ] at h1 ⊢
        unfold Node.Delete at h1 ⊢
        rw [if_neg hd] at h1 ⊢
        simp only [Node.DeleteSparse] at h1 ⊢
        have hlen : n.data_sparse.take n.size.toNat = n.data_sparse := by
          apply List.take_of_length_le
          omega
        rw [hlen] at h1 ⊢
        by_cases hmem : v ∈ n.data_sparse
        · rw [if_pos hmem] at h1 ⊢
          refine ⟨h1, ?_⟩
          simp only
          rw [List.length_erase_of_mem hmem]
          have hpos : 0 < n.data_sparse.length := List.length_pos.mpr
            (List.ne_nil_of_mem hmem)
          omega
        · rw [if_neg hmem] at h1 ⊢
          exact ⟨h1, hs⟩
    have hpre2 : ∀ k, k ≤ rest.length →
        ((n.applyOp op).applyOps (rest.take k)).type = NodeType.Sparse := by
      intro k hk
      have := hpre (k + 1) (by simpa using Nat.succ_le_succ hk)
      simpa [Node.applyOps] using this
    have := ih (n.applyOp op) hstep.1 hstep.2 hpre2
    simpa [Node.applyOps] using this

/-- C6 amended: the initial Node has size = 0, min = INT_MAX and max = -1;
after any sequence of Add and Delete operations during which the node's
representation remains Sparse, size equals the number of live entries and so
stays nonnegative.  The converse direction of the claim fails: min and max
are never reset, so a node emptied by deletion keeps the min/max of its
former contents instead of returning to min = INT_MAX, max = -1 (and a Dense
node's size can even go negative, since DeleteDense decrements size for any
in-span value). -/
theorem C6_amended :
    (Node.init.size = 0 ∧ Node.init.min = 2147483647 ∧ Node.init.max = -1) ∧
    ∀ ops : List NodeOp,
      (∀ k, k ≤ ops.length →
        (Node.init.applyOps (ops.take k)).type = NodeType.Sparse) →
      0 ≤ (Node.init.applyOps ops).size ∧
      (Node.init.applyOps ops).size =
        ((Node.init.applyOps ops).data_sparse.length : Int) := by
  refine ⟨⟨rfl, rfl, rfl⟩, ?_⟩
  intro ops hpre
  have := applyOps_sparse_size ops Node.init rfl rfl hpre
  refine ⟨?_, this.2⟩
  rw [this.2]
  positivity

/-- C6 amended witness: the two-operation sequence Add(3), Delete(3) stays
Sparse and ends with size 0 = number of live entries. -/
theorem C6_amended_witness :
    (∀ k, k ≤ ([NodeOp.add 3, NodeOp.del 3] : List NodeOp).length →
      (Node.init.applyOps (([NodeOp.add 3, NodeOp.del 3] : List NodeOp).take k)).type
        = NodeType.Sparse) ∧
    0 ≤ (Node.init.applyOps [NodeOp.add 3, NodeOp.del 3]).size ∧
    (Node.init.applyOps [NodeOp.add 3, NodeOp.del 3]).size =
      ((Node.init.applyOps [NodeOp.add 3, NodeOp.del 3]).data_sparse.length : Int) := by
  have h : ∀ k, k ≤ ([NodeOp.add 3, NodeOp.del 3] : List NodeOp).length →
      (Node.init.applyOps (([NodeOp.add 3, NodeOp.del 3] : List NodeOp).take k)).type
        = NodeType.Sparse := by decide
  have := C6_amended.2 [NodeOp.add 3, NodeOp.del 3] h
  exact ⟨h, this.1, this.2⟩

/-! Claim C8. -/

set_option maxRecDepth 4000 in
theorem add128_mod_eq_xor : ∀ b : Nat, b < 256 → (b + 128) % 256 = b ^^^ 128 := by
  decide

/-- C8: for every nonempty byte string, ReverseEndian produces the reversed
byte string with 0x80 xor-ed into its first byte: out[0] = in[n-1] xor 0x80
and out[i] = in[n-1-i] for 0 < i < n; the code's addition of 0x80 in 8-bit
modular arithmetic coincides with the xor because 0x80 is the top bit of the
byte. -/
theorem C8_reverse_endian (l : List Nat) (hne : l ≠ [])
    (hbytes : ∀ b ∈ l, b < 256) :
    (ReverseEndian l).length = l.length ∧
    (ReverseEndian l).getD 0 0 = (l.getD (l.length - 1) 0) ^^^ 128 ∧
    ∀ i, 0 < i → i < l.length →
      (ReverseEndian l).getD i 0 = l.getD (l.length - 1 - i) 0 := by
  have hrevne : l.reverse ≠ [] := by simpa using hne
  obtain ⟨b, rest, hrev⟩ := List.exists_cons_of_ne_nil hrevne
  have hre : ReverseEndian l = ((b + 128) % 256) :: rest := by
    unfold ReverseEndian
    rw [hrev]
  have hlenrev : l.length = rest.length + 1 := by
    have := congrArg List.length hrev
    simpa using this
  have hlpos : 0 < l.length := by omega
  have hrevgetD : ∀ i, i < l.length → l.reverse.getD i 0 = l.getD (l.length - 1 - i) 0 := by
    intro i hi
    have hi' : i < l.reverse.length := by simpa using hi
    rw [List.getD_eq_getElem _ _ hi', List.getElem_reverse,
      List.getD_eq_getElem _ _ (by omega)]
  have hb : b = l.getD (l.length - 1) 0 := by
    have := hrevgetD 0 hlpos
    rw [hrev] at this
    simpa using this
  have hbmem : b ∈ l := by
    have : b ∈ l.reverse := by rw [hrev]; exact List.mem_cons_self b rest
    simpa using this
  refine ⟨?_, ?_, ?_⟩
  · rw [hre]
    simpa using hlenrev.symm
  · rw [hre, hb]
    simpa using add128_mod_eq_xor (l.getD (l.length - 1) 0) (hb ▸ hbytes b hbmem)
  · intro i h0 hi
    rw [hre]
    have h1 : (((b + 128) % 256) :: rest).getD i 0 = rest.getD (i - 1) 0 := by
      cases i with
      | zero => omega
      | succ m => simp
    have h2 : l.reverse.getD i 0 = rest.getD (i - 1) 0 := by
      rw [hrev]
      cases i with
      | zero => omega
      | succ m => simp
    rw [h1, ← h2, hrevgetD i hi]

/-- C8 witness at the concrete three-byte key [1, 2, 0x90]. -/
theorem C8_reverse_endian_witness :
    ([1, 2, 144] : List Nat) ≠ [] ∧ (∀ b ∈ ([1, 2, 144] : List Nat), b < 256) ∧
    (ReverseEndian [1, 2, 144]).getD 0 0 = 144 ^^^ 128 :=
  ⟨by decide, by decide,
    (C8_reverse_endian [1, 2, 144] (by decide) (by decide)).2.1⟩

/-! Claim C9. -/

/-- C9: Add and Delete on the coordinator return 0 and leave the whole state
(the mutation queue and every field slot) unchanged when the addressed field
slot is null. -/
theorem C9_null_slot_noop (m : MultiFieldsRangeIndex) (docid f : Int)
    (h : m.fieldAt f = none) :
    m.Add docid f = (0, m) ∧ m.Delete docid f = (0, m) := by
  unfold MultiFieldsRangeIndex.Add MultiFieldsRangeIndex.Delete
  rw [h]
  exact ⟨rfl, rfl⟩

/-- C9 witness: a coordinator with a single null slot. -/
theorem C9_null_slot_noop_witness :
    ({ fields := [none], queue := [] } : MultiFieldsRangeIndex).Add 7 0 =
      (0, ({ fields := [none], queue := [] } : MultiFieldsRangeIndex)) ∧
    ({ fields := [none], queue := [] } : MultiFieldsRangeIndex).Delete 7 0 =
      (0, ({ fields := [none], queue := [] } : MultiFieldsRangeIndex)) :=
  C9_null_slot_noop { fields := [none], queue := [] } 7 0 rfl

/-! Claim C10. -/

theorem preprocess_none (m : MultiFieldsRangeIndex) :
    ∀ fs : List FilterInfo, (∃ f ∈ fs, m.fieldAt f.field = none) →
      m.preprocess fs = none := by
  intro fs
  induction fs with
  | nil =>
    rintro ⟨f, hf, _⟩
    cases hf
  | cons g rest ih =>
    rintro ⟨f, hf, hnone⟩
    unfold MultiFieldsRangeIndex.preprocess
    rcases List.mem_cons.mp hf with hfg | hfr
    · subst hfg
      rw [hnone]
    · cases hg : m.fieldAt g.field with
      | none => rfl
      | some index =>
        rw [ih ⟨f, hfr, hnone⟩]

/-- C10: if any filter in the list refers to a null field slot or carries a
negative field id, the coordinator Search returns -1 from the preprocessing
loop, regardless of the other filters. -/
theorem C10_bad_filter_returns_minus_one (m : MultiFieldsRangeIndex)
    (filters : List FilterInfo)
    (h : ∃ f ∈ filters, m.fieldAt f.field = none ∨ f.field < 0) :
    m.Search filters = -1 := by
  have h2 : ∃ f ∈ filters, m.fieldAt f.field = none := by
    obtain ⟨f, hf, hc⟩ := h
    refine ⟨f, hf, ?_⟩
    rcases hc with hc | hc
    · exact hc
    · unfold MultiFieldsRangeIndex.fieldAt
      rw [if_pos hc]
  unfold MultiFieldsRangeIndex.Search
  rw [preprocess_none m filters h2]

/-- C10 witness: one valid numeric filter followed by a filter on a null
slot. -/
theorem C10_bad_filter_returns_minus_one_witness :
    ({ fields := [some friC2, none], queue := [] } : MultiFieldsRangeIndex).Search
      [{ field := 0, lower_value := key42, upper_value := key42, is_union := 1 },
       { field := 1, lower_value := [], upper_value := [], is_union := 1 }] = -1 :=
  C10_bad_filter_returns_minus_one _ _
    ⟨{ field := 1, lower_value := [], upper_value := [], is_union := 1 },
      by simp, Or.inl rfl⟩

/-! Claim C2. -/

/-- C2 counterexample: the end-to-end numeric scenario search (doc ids 10, 11
and 12 under key 42, doc id 1000 under key 50, Search with lower 42 and upper
50) returns max_doc - min_doc + 1 = 991, not the claimed count of 4. -/
theorem C2_counterexample :
    (friC2.Search key42 key50).1 = 991 ∧ (friC2.Search key42 key50).1 ≠ 4 := by
  decide

set_option maxRecDepth 8000 in
theorem getBit_c2words_lt : ∀ q : Nat, q < 1024 →
    getBit [7168, 0, 0, 0, 0, 0, 0, 0, 0, 0, 0, 0, 0, 0, 0, 1099511627776] q =
      decide (q = 10 ∨ q = 11 ∨ q = 12 ∨ q = 1000) := by
  decide

theorem getBit_c2words (q : Nat) :
    getBit [7168, 0, 0, 0, 0, 0, 0, 0, 0, 0, 0, 0, 0, 0, 0, 1099511627776] q =
      decide (q = 10 ∨ q = 11 ∨ q = 12 ∨ q = 1000) := by
  by_cases hq : q < 1024
  · exact getBit_c2words_lt q hq
  · have hlen : ([7168, 0, 0, 0, 0, 0, 0, 0, 0, 0, 0, 0, 0, 0, 0,
        1099511627776] : List Nat).length = 16 := rfl
    rw [getBit_beyond _ _ (by rw [hlen]; omega)]
    symm
    rw [decide_eq_false]
    omega

/-- C2 amended: the scenario search produces a bitmap with exactly bits 10,
11, 12 and 1000 set and stores the count 4 in the result's doc_num, but its
int return value is max_doc - min_doc + 1 = 1000 - 10 + 1 = 991. -/
theorem C2_amended :
    (friC2.Search key42 key50).1 = 991 ∧
    ((friC2.Search key42 key50).2.map RangeQueryResult.doc_num) = some 4 ∧
    ∀ d : Int, resultBit (friC2.Search key42 key50) d =
      decide (d = 10 ∨ d = 11 ∨ d = 12 ∨ d = 1000) := by
  have hval : friC2.Search key42 key50 =
      (991, some
        { min_aligned := 0, max_aligned := 1023,
          words := [7168, 0, 0, 0, 0, 0, 0, 0, 0, 0, 0, 0, 0, 0, 0, 1099511627776],
          doc_num := 4 }) := by decide
  refine ⟨by rw [hval], by rw [hval]; rfl, ?_⟩
  intro d
  rw [hval]
  show RangeQueryResult.bit _ d = _
  unfold RangeQueryResult.bit
  simp only
  by_cases hd : (0 : Int) ≤ d
  · by_cases hd2 : d ≤ (1023 : Int)
    · rw [decide_eq_true hd, decide_eq_true hd2, sub_zero]
      simp only [Bool.true_and, Bool.and_true]
      rw [getBit_c2words]
      rw [decide_eq_decide]
      omega
    · rw [decide_eq_false hd2]
      simp only [Bool.and_false, Bool.false_and]
      symm
      rw [decide_eq_false]
      omega
  · rw [decide_eq_false hd]
    simp only [Bool.false_and]
    symm
    rw [decide_eq_false]
    omega

/-! Claim C7: supporting lemmas. -/

theorem contains_eq_decide_mem (l : List Int) (a : Int) :
    l.contains a = decide (a ∈ l) := by
  induction l with
  | nil => rfl
  | cons b bs ih => simp [List.contains_cons, ih]

theorem take_size_of_eq (l : List Int) (sz : Int) (h : sz = (l.length : Int)) :
    l.take sz.toNat = l :=
  List.take_of_length_le (by omega)

theorem countBits_eq_zero (ws : List Nat) (h : countBits ws = 0) :
    ∀ p, getBit ws p = false := by
  intro p
  by_cases hp : p < ws.length * 64
  · by_contra hbit
    have hmem : p ∈ (List.range (ws.length * 64)).filter (fun q => getBit ws q) := by
      rw [List.mem_filter, List.mem_range]
      exact ⟨hp, by simpa using hbit⟩
    have : 0 < countBits ws := by
      unfold countBits
      exact List.length_pos.mpr (List.ne_nil_of_mem hmem)
    omega
  · exact getBit_beyond ws p (by omega)

theorem foldl_min_le_init (l : List Node) (g : Node → Int) :
    ∀ a : Int, l.foldl (fun x n => Min.min x (g n)) a ≤ a := by
  induction l with
  | nil => intro a; exact le_refl a
  | cons n ns ih =>
    intro a
    calc (n :: ns).foldl (fun x m => Min.min x (g m)) a
        = ns.foldl (fun x m => Min.min x (g m)) (Min.min a (g n)) := rfl
      _ ≤ Min.min a (g n) := ih _
      _ ≤ a := min_le_left _ _

theorem foldl_min_le_mem (l : List Node) (g : Node → Int) :
    ∀ a : Int, ∀ n ∈ l, l.foldl (fun x m => Min.min x (g m)) a ≤ g n := by
  induction l with
  | nil => intro a n hn; cases hn
  | cons m ms ih =>
    intro a n hn
    rcases List.mem_cons.mp hn with h | h
    · subst h
      calc (n :: ms).foldl (fun x k => Min.min x (g k)) a
          = ms.foldl (fun x k => Min.min x (g k)) (Min.min a (g n)) := rfl
        _ ≤ Min.min a (g n) := foldl_min_le_init ms g _
        _ ≤ g n := min_le_right _ _
    · exact ih (Min.min a (g m)) n h

theorem foldl_min_cases (l : List Node) (g : Node → Int) :
    ∀ a : Int, l.foldl (fun x m => Min.min x (g m)) a = a ∨
      ∃ n ∈ l, l.foldl (fun x m => Min.min x (g m)) a = g n := by
  induction l with
  | nil => intro a; exact Or.inl rfl
  | cons m ms ih =>
    intro a
    rcases ih (Min.min a (g m)) with h | ⟨n, hn, h⟩
    · have hstep : (m :: ms).foldl (fun x k => Min.min x (g k)) a
          = ms.foldl (fun x k => Min.min x (g k)) (Min.min a (g m)) := rfl
      rcases min_cases a (g m) with ⟨hm, _⟩ | ⟨hm, _⟩
      · exact Or.inl (by rw [hstep, h, hm])
      · exact Or.inr ⟨m, List.mem_cons_self m ms, by rw [hstep, h, hm]⟩
    · exact Or.inr ⟨n, List.mem_cons_of_mem m hn, h⟩

theorem foldl_max_ge_init (l : List Node) (g : Node → Int) :
    ∀ a : Int, a ≤ l.foldl (fun x n => Max.max x (g n)) a := by
  induction l with
  | nil => intro a; exact le_refl a
  | cons n ns ih =>
    intro a
    calc a ≤ Max.max a (g n) := le_max_left _ _
      _ ≤ ns.foldl (fun x m => Max.max x (g m)) (Max.max a (g n)) := ih _
      _ = (n :: ns).foldl (fun x m => Max.max x (g m)) a := rfl

theorem foldl_max_ge_mem (l : List Node) (g : Node → Int) :
    ∀ a : Int, ∀ n ∈ l, g n ≤ l.foldl (fun x m => Max.max x (g m)) a := by
  induction l with
  | nil => intro a n hn; cases hn
  | cons m ms ih =>
    intro a n hn
    rcases List.mem_cons.mp hn with h | h
    · subst h
      calc g n ≤ Max.max a (g n) := le_max_right _ _
        _ ≤ ms.foldl (fun x k => Max.max x (g k)) (Max.max a (g n)) :=
            foldl_max_ge_init ms g _
        _ = (n :: ms).foldl (fun x k => Max.max x (g k)) a := rfl
    · exact ih (Max.max a (g m)) n h

theorem foldl_max_cases (l : List Node) (g : Node → Int) :
    ∀ a : Int, l.foldl (fun x m => Max.max x (g m)) a = a ∨
      ∃ n ∈ l, l.foldl (fun x m => Max.max x (g m)) a = g n := by
  induction l with
  | nil => intro a; exact Or.inl rfl
  | cons m ms ih =>
    intro a
    rcases ih (Max.max a (g m)) with h | ⟨n, hn, h⟩
    · have hstep : (m :: ms).foldl (fun x k => Max.max x (g k)) a
          = ms.foldl (fun x k => Max.max x (g k)) (Max.max a (g m)) := rfl
      rcases max_cases a (g m) with ⟨hm, _⟩ | ⟨hm, _⟩
      · exact Or.inl (by rw [hstep, h, hm])
      · exact Or.inr ⟨m, List.mem_cons_self m ms, by rw [hstep, h, hm]⟩
    · exact Or.inr ⟨n, List.mem_cons_of_mem m hn, h⟩

theorem length_setFold (vals : List Int) (base : Int) :
    ∀ ws : List Nat,
      (vals.foldl (fun ws v => bitmapSet ws (v - base)) ws).length = ws.length := by
  induction vals with
  | nil => intro ws; rfl
  | cons v vs ih =>
    intro ws
    calc ((v :: vs).foldl (fun ws v => bitmapSet ws (v - base)) ws).length
        = (vs.foldl (fun ws v => bitmapSet ws (v - base)) (bitmapSet ws (v - base))).length := rfl
      _ = (bitmapSet ws (v - base)).length := ih _
      _ = ws.length := length_bitmapSet ws (v - base)

theorem getBit_setFold (vals : List Int) (base : Int) :
    ∀ (ws : List Nat) (q : Nat),
      getBit (vals.foldl (fun ws v => bitmapSet ws (v - base)) ws) q =
        (getBit ws q ||
          vals.any (fun v => decide (0 ≤ v - base) && decide ((v - base).toNat = q) &&
            decide (q / 64 < ws.length))) := by
  induction vals with
  | nil => intro ws q; simp
  | cons v vs ih =>
    intro ws q
    have hstep : (v :: vs).foldl (fun ws v => bitmapSet ws (v - base)) ws
        = vs.foldl (fun ws v => bitmapSet ws (v - base)) (bitmapSet ws (v - base)) := rfl
    rw [hstep, ih, getBit_bitmapSet, length_bitmapSet, List.any_cons]
    cases getBit ws q <;> simp [Bool.or_assoc, Bool.or_comm, Bool.or_left_comm]

theorem length_convFold (vals : List Int) (lo hi : Int) :
    ∀ ws : List Nat,
      (vals.foldl (fun ws v => if v < lo ∨ hi < v then ws else bitmapSet ws (v - lo)) ws).length
        = ws.length := by
  induction vals with
  | nil => intro ws; rfl
  | cons v vs ih =>
    intro ws
    have hstep : ((v :: vs).foldl
        (fun ws v => if v < lo ∨ hi < v then ws else bitmapSet ws (v - lo)) ws)
        = vs.foldl (fun ws v => if v < lo ∨ hi < v then ws else bitmapSet ws (v - lo))
            (if v < lo ∨ hi < v then ws else bitmapSet ws (v - lo)) := rfl
    rw [hstep, ih]
    split
    · rfl
    · exact length_bitmapSet ws (v - lo)

theorem getBit_convFold (vals : List Int) (lo hi : Int) :
    ∀ (ws : List Nat) (q : Nat),
      getBit (vals.foldl (fun ws v => if v < lo ∨ hi < v then ws else bitmapSet ws (v - lo)) ws) q =
        (getBit ws q ||
          vals.any (fun v => !decide (v < lo ∨ hi < v) && decide (0 ≤ v - lo) &&
            decide ((v - lo).toNat = q) && decide (q / 64 < ws.length))) := by
  induction vals with
  | nil => intro ws q; simp
  | cons v vs ih =>
    intro ws q
    have hstep : ((v :: vs).foldl
        (fun ws v => if v < lo ∨ hi < v then ws else bitmapSet ws (v - lo)) ws)
        = vs.foldl (fun ws v => if v < lo ∨ hi < v then ws else bitmapSet ws (v - lo))
            (if v < lo ∨ hi < v then ws else bitmapSet ws (v - lo)) := rfl
    rw [hstep, ih, List.any_cons]
    by_cases hskip : v < lo ∨ hi < v
    · rw [if_pos hskip, decide_eq_true hskip]
      simp
    · rw [if_neg hskip, decide_eq_false hskip, getBit_bitmapSet, length_bitmapSet]
      cases getBit ws q <;> simp [Bool.or_assoc, Bool.or_comm, Bool.or_left_comm]

theorem node_mem_bounds (n : Node) (hWFs : n.WFs) (d : Int) (h : n.mem d = true) :
    n.min ≤ d ∧ d ≤ n.max := by
  obtain ⟨hA, hB, hC, hD, hE, hF, hG, hDense, hSparse⟩ := hWFs
  cases htype : n.type with
  | Sparse =>
    obtain ⟨hsz, hvals⟩ := hSparse htype
    have hm : n.mem d = (n.data_sparse.take n.size.toNat).contains d := by
      simp only [Node.mem, htype]
    rw [hm, take_size_of_eq _ _ hsz, contains_eq_decide_mem] at h
    exact hvals d (of_decide_eq_true h)
  | Dense =>
    obtain ⟨hlen, hbits⟩ := hDense htype
    have hm : n.mem d = (decide (n.min_aligned ≤ d) && decide (d ≤ n.max_aligned) &&
        getBit n.data_dense (d - n.min_aligned).toNat) := by
      simp only [Node.mem, htype]
    rw [hm] at h
    simp only [Bool.and_eq_true, decide_eq_true_eq] at h
    obtain ⟨⟨h1, h2⟩, h3⟩ := h
    have hp : (d - n.min_aligned).toNat < n.data_dense.length * 64 := by
      rw [hlen]
      omega
    have := hbits _ hp h3
    constructor <;> omega

theorem sparse_add_delete (n : Node) (doc : Int)
    (ht : n.type = NodeType.Sparse) (hWFs : n.WFs) (h0 : 0 ≤ doc)
    (h29 : doc < 2 ^ 29) (hfresh : doc ∉ n.data_sparse) :
    ((n.AddSparse doc).DeleteSparse doc).1 = 0 ∧
    ((n.AddSparse doc).DeleteSparse doc).2.WFs ∧
    ((n.AddSparse doc).DeleteSparse doc).2.type = NodeType.Sparse ∧
    ∀ d, ((n.AddSparse doc).DeleteSparse doc).2.mem d = n.mem d := by
  obtain ⟨hA, hB, hC, hD, hE, hF, hG, hDense, hSparse⟩ := hWFs
  obtain ⟨hsz, hvals⟩ := hSparse ht
  have htake : n.data_sparse.take n.size.toNat = n.data_sparse :=
    take_size_of_eq _ _ hsz
  have e2 : (n.AddSparse doc).size = n.size + 1 := rfl
  have hlive : (n.AddSparse doc).data_sparse.take (n.AddSparse doc).size.toNat
      = n.data_sparse ++ [doc] := by
    show (n.data_sparse.take n.size.toNat ++ [doc]).take (n.size + 1).toNat
        = n.data_sparse ++ [doc]
    rw [htake]
    apply List.take_of_length_le
    rw [List.length_append]
    simp only [List.length_cons, List.length_nil]
    omega
  have hmem : doc ∈ (n.AddSparse doc).data_sparse.take (n.AddSparse doc).size.toNat := by
    rw [hlive]
    exact List.mem_append_right _ (List.mem_singleton.mpr rfl)
  have hdel : (n.AddSparse doc).DeleteSparse doc =
      (0, { n.AddSparse doc with
            size := (n.AddSparse doc).size - 1,
            data_sparse :=
              ((n.AddSparse doc).data_sparse.take (n.AddSparse doc).size.toNat).erase doc }) := by
    simp only [Node.DeleteSparse]
    rw [if_pos hmem]
  have herase : ((n.AddSparse doc).data_sparse.take (n.AddSparse doc).size.toNat).erase doc
      = n.data_sparse := by
    rw [hlive, List.erase_append_right _ hfresh, List.erase_cons_head, List.append_nil]
  have r0 : ((n.AddSparse doc).DeleteSparse doc).1 = 0 := by rw [hdel]
  have rmin : ((n.AddSparse doc).DeleteSparse doc).2.min = Min.min n.min doc := by
    rw [hdel]
    rfl
  have rmax : ((n.AddSparse doc).DeleteSparse doc).2.max = Max.max n.max doc := by
    rw [hdel]
    rfl
  have rminA : ((n.AddSparse doc).DeleteSparse doc).2.min_aligned
      = if doc < n.min_aligned then (doc / 64) * 64 else n.min_aligned := by
    rw [hdel]
    rfl
  have rmaxA : ((n.AddSparse doc).DeleteSparse doc).2.max_aligned
      = if doc > n.max_aligned then (doc / 64 + 1) * 64 - 1 else n.max_aligned := by
    rw [hdel]
    rfl
  have rtype : ((n.AddSparse doc).DeleteSparse doc).2.type = NodeType.Sparse := by
    rw [hdel]
    exact ht
  have rsize : ((n.AddSparse doc).DeleteSparse doc).2.size = n.size + 1 - 1 := by
    rw [hdel]
    rfl
  have rdata : ((n.AddSparse doc).DeleteSparse doc).2.data_sparse = n.data_sparse := by
    rw [hdel]
    exact herase
  refine ⟨r0, ?_, rtype, ?_⟩
  · unfold Node.WFs
    rw [rmin, rmax, rminA, rmaxA, rtype, rsize, rdata]
    refine ⟨?_, ?_, ?_, ?_, ?_, ?_, ?_, ?_, ?_⟩
    · split <;> omega
    · split <;> omega
    · split <;> omega
    · split <;> omega
    · omega
    · split <;> omega
    · omega
    · intro hcon
      cases hcon
    · intro _
      refine ⟨by omega, ?_⟩
      intro v hv
      have := hvals v hv
      omega
  · intro d
    have hmem1 : ((n.AddSparse doc).DeleteSparse doc).2.mem d
        = (((n.AddSparse doc).DeleteSparse doc).2.data_sparse.take
            ((n.AddSparse doc).DeleteSparse doc).2.size.toNat).contains d := by
      simp only [Node.mem, rtype]
    have hmem2 : n.mem d = (n.data_sparse.take n.size.toNat).contains d := by
      simp only [Node.mem, ht]
    rw [hmem1, hmem2, rdata, rsize, htake]
    rw [show (n.size + 1 - 1) = n.size from by omega, htake]

theorem any_congr (l : List Int) (f g : Int → Bool) (h : ∀ x ∈ l, f x = g x) :
    l.any f = l.any g := by
  induction l with
  | nil => rfl
  | cons x xs ih =>
    rw [List.any_cons, List.any_cons, h x (List.mem_cons_self x xs),
      ih (fun y hy => h y (List.mem_cons_of_mem x hy))]

theorem any_decide_eq_mem (l : List Int) (d : Int) :
    (l.any fun v => decide (v = d)) = decide (d ∈ l) := by
  induction l with
  | nil => simp
  | cons x xs ih =>
    rw [List.any_cons, ih]
    by_cases hx : x = d
    · subst hx
      simp
    · have hx2 : ¬(d = x) := fun hc => hx hc.symm
      simp [hx, hx2]

theorem not_mem_data_of_mem_false (m : Node) (htm : m.type = NodeType.Sparse)
    (hW : m.WFs) (d : Int) (h : m.mem d = false) : d ∉ m.data_sparse := by
  obtain ⟨_, _, _, _, _, _, _, _, hSparse⟩ := hW
  obtain ⟨hsz, _⟩ := hSparse htm
  have hm : m.mem d = (m.data_sparse.take m.size.toNat).contains d := by
    simp only [Node.mem, htm]
  rw [hm, take_size_of_eq _ _ hsz, contains_eq_decide_mem] at h
  exact of_decide_eq_false h

theorem ConvertToDense_mem (n : Node) (ht : n.type = NodeType.Sparse)
    (hWFs : n.WFs) :
    (n.ConvertToDense).WFs ∧ (n.ConvertToDense).type = NodeType.Dense ∧
    (n.ConvertToDense).size = n.size ∧
    ∀ d, (n.ConvertToDense).mem d = n.mem d := by
  obtain ⟨hA, hB, hC, hD, hE, hF, hG, hDense, hSparse⟩ := hWFs
  obtain ⟨hsz, hvals⟩ := hSparse ht
  have htake : n.data_sparse.take n.size.toNat = n.data_sparse :=
    take_size_of_eq _ _ hsz
  have ctype : (n.ConvertToDense).type = NodeType.Dense := rfl
  have cmin : (n.ConvertToDense).min = n.min := rfl
  have cmax : (n.ConvertToDense).max = n.max := rfl
  have cminA : (n.ConvertToDense).min_aligned = n.min_aligned := rfl
  have cmaxA : (n.ConvertToDense).max_aligned = n.max_aligned := rfl
  have csize : (n.ConvertToDense).size = n.size := rfl
  have edata : (n.ConvertToDense).data_dense
      = (n.data_sparse.take n.size.toNat).foldl
          (fun ws v => if v < n.min_aligned ∨ n.max_aligned < v then ws
            else bitmapSet ws (v - n.min_aligned))
          (bitmapCreate (n.max_aligned - n.min_aligned + 1)) := rfl
  have elen0 : (bitmapCreate (n.max_aligned - n.min_aligned + 1)).length
      = ((n.max_aligned - n.min_aligned + 1) / 64).toNat := by
    unfold bitmapCreate
    exact List.length_replicate _ _
  have elen : (n.ConvertToDense).data_dense.length
      = ((n.max_aligned - n.min_aligned + 1) / 64).toNat := by
    rw [edata, length_convFold, elen0]
  have hbit : ∀ q : Nat, getBit (n.ConvertToDense).data_dense q =
      n.data_sparse.any (fun v => decide (0 ≤ v - n.min_aligned) &&
        decide ((v - n.min_aligned).toNat = q) &&
        decide (q / 64 < ((n.max_aligned - n.min_aligned + 1) / 64).toNat)) := by
    intro q
    rw [edata, htake, getBit_convFold, getBit_bitmapCreate, Bool.false_or, elen0]
    apply any_congr
    intro v hv
    have hvb := hvals v hv
    rw [decide_eq_false (show ¬(v < n.min_aligned ∨ n.max_aligned < v) by omega)]
    simp
  refine ⟨?_, ctype, csize, ?_⟩
  · unfold Node.WFs
    rw [ctype, cmin, cmax, cminA, cmaxA]
    refine ⟨hA, hB, hC, hD, hE, hF, hG, ?_, ?_⟩
    · intro _
      refine ⟨elen, ?_⟩
      intro p hp hbitp
      rw [hbit p] at hbitp
      obtain ⟨v, hv, hterm⟩ := List.any_eq_true.mp hbitp
      simp only [Bool.and_eq_true, decide_eq_true_eq] at hterm
      have hvb := hvals v hv
      omega
    · intro hcon
      cases hcon
  · intro d
    have hmemc : (n.ConvertToDense).mem d =
        (decide (n.min_aligned ≤ d) && decide (d ≤ n.max_aligned) &&
          getBit (n.ConvertToDense).data_dense (d - n.min_aligned).toNat) := by
      simp only [Node.mem, ctype, cminA, cmaxA]
    have hmemn : n.mem d = (n.data_sparse.take n.size.toNat).contains d := by
      simp only [Node.mem, ht]
    rw [hmemc, hmemn, htake, contains_eq_decide_mem, hbit]
    by_cases hin : n.min_aligned ≤ d ∧ d ≤ n.max_aligned
    · rw [decide_eq_true hin.1, decide_eq_true hin.2]
      simp only [Bool.true_and]
      have hcong : n.data_sparse.any (fun v => decide (0 ≤ v - n.min_aligned) &&
          decide ((v - n.min_aligned).toNat = (d - n.min_aligned).toNat) &&
          decide ((d - n.min_aligned).toNat / 64 <
            ((n.max_aligned - n.min_aligned + 1) / 64).toNat))
          = n.data_sparse.any (fun v => decide (v = d)) := by
        apply any_congr
        intro v hv
        have hvb := hvals v hv
        by_cases hvd : v = d
        · subst hvd
          rw [decide_eq_true (show (0:Int) ≤ v - n.min_aligned by omega),
            decide_eq_true (show (v - n.min_aligned).toNat / 64 <
              ((n.max_aligned - n.min_aligned + 1) / 64).toNat by omega)]
          simp
        · rw [decide_eq_false hvd, decide_eq_false
            (show ¬((v - n.min_aligned).toNat = (d - n.min_aligned).toNat) by omega)]
          simp
      rw [hcong, any_decide_eq_mem]
    · have h1 : (decide (n.min_aligned ≤ d) && decide (d ≤ n.max_aligned)) = false := by
        rcases not_and_or.mp hin with hc | hc
        · rw [decide_eq_false hc, Bool.false_and]
        · rw [decide_eq_false hc, Bool.and_false]
      rw [h1, Bool.false_and]
      symm
      rw [decide_eq_false]
      intro hmem
      have := hvals d hmem
      omega

theorem ConvertToSparse_mem (n : Node) (ht : n.type = NodeType.Dense)
    (hWF : n.WF) :
    (n.ConvertToSparse).WFs ∧ (n.ConvertToSparse).type = NodeType.Sparse ∧
    ∀ d, (n.ConvertToSparse).mem d = n.mem d := by
  obtain ⟨⟨hA, hB, hC, hD, hE, hF, hG, hDense, hSparse⟩, hcount, _⟩ := hWF
  obtain ⟨hlen, hbits⟩ := hDense ht
  have hsize := hcount ht
  have hspan : (n.max_aligned - n.min_aligned + 1).toNat = n.data_dense.length * 64 := by
    rw [hlen]
    omega
  have ctype : (n.ConvertToSparse).type = NodeType.Sparse := rfl
  have cmin : (n.ConvertToSparse).min = n.min := rfl
  have cmax : (n.ConvertToSparse).max = n.max := rfl
  have cminA : (n.ConvertToSparse).min_aligned = n.min_aligned := rfl
  have cmaxA : (n.ConvertToSparse).max_aligned = n.max_aligned := rfl
  have hszc : (n.ConvertToSparse).size = n.size := rfl
  have edata : (n.ConvertToSparse).data_sparse =
      (((List.range (n.max_aligned - n.min_aligned + 1).toNat).filter
        (fun i => getBit n.data_dense i)).map
          (fun (i : Nat) => n.min_aligned + (i : Int))).take n.size.toNat := rfl
  have hposlen : (((List.range (n.max_aligned - n.min_aligned + 1).toNat).filter
      (fun i => getBit n.data_dense i)).map
        (fun (i : Nat) => n.min_aligned + (i : Int))).length = countBits n.data_dense := by
    rw [List.length_map, hspan]
    rfl
  have htakepos : (n.ConvertToSparse).data_sparse =
      ((List.range (n.max_aligned - n.min_aligned + 1).toNat).filter
        (fun i => getBit n.data_dense i)).map (fun (i : Nat) => n.min_aligned + (i : Int)) := by
    rw [edata]
    apply List.take_of_length_le
    rw [hposlen]
    omega
  have hmempos : ∀ d : Int, d ∈ (n.ConvertToSparse).data_sparse ↔
      ∃ i : Nat, i < (n.max_aligned - n.min_aligned + 1).toNat ∧
        getBit n.data_dense i = true ∧ d = n.min_aligned + (i : Int) := by
    intro d
    rw [htakepos]
    constructor
    · intro hd
      obtain ⟨i, hi, hid⟩ := List.mem_map.mp hd
      obtain ⟨hir, hbitw⟩ := List.mem_filter.mp hi
      exact ⟨i, List.mem_range.mp hir, by simpa using hbitw, hid.symm⟩
    · rintro ⟨i, hi, hbitw, rfl⟩
      exact List.mem_map.mpr ⟨i, List.mem_filter.mpr
        ⟨List.mem_range.mpr hi, by simpa using hbitw⟩, rfl⟩
  refine ⟨?_, ctype, ?_⟩
  · unfold Node.WFs
    rw [ctype, cmin, cmax, cminA, cmaxA]
    refine ⟨hA, hB, hC, hD, hE, hF, hG, ?_, ?_⟩
    · intro hcon
      cases hcon
    · intro _
      constructor
      · rw [hszc, htakepos, hposlen, hsize]
      · intro v hv
        obtain ⟨i, hi, hbitw, hvi⟩ := (hmempos v).mp hv
        have := hbits i (by omega) hbitw
        omega
  · intro d
    have htk : (n.ConvertToSparse).data_sparse.take (n.ConvertToSparse).size.toNat
        = (n.ConvertToSparse).data_sparse := by
      apply List.take_of_length_le
      rw [htakepos, hposlen, hszc]
      omega
    have hmemc : (n.ConvertToSparse).mem d
        = decide (d ∈ (n.ConvertToSparse).data_sparse) := by
      simp only [Node.mem, ctype]
      rw [htk, contains_eq_decide_mem]
    have hmemn : n.mem d = (decide (n.min_aligned ≤ d) && decide (d ≤ n.max_aligned) &&
        getBit n.data_dense (d - n.min_aligned).toNat) := by
      simp only [Node.mem, ht]
    rw [hmemc, hmemn]
    by_cases hin : n.min_aligned ≤ d ∧ d ≤ n.max_aligned
    · rw [decide_eq_true hin.1, decide_eq_true hin.2]
      simp only [Bool.true_and]
      by_cases hbitd : getBit n.data_dense (d - n.min_aligned).toNat = true
      · rw [decide_eq_true ((hmempos d).mpr
          ⟨(d - n.min_aligned).toNat, by omega, hbitd, by omega⟩), hbitd]
      · rw [show getBit n.data_dense (d - n.min_aligned).toNat = false by
          simpa using hbitd]
        rw [decide_eq_false]
        intro hmem
        obtain ⟨i, hi, hbitw, hdi⟩ := (hmempos d).mp hmem
        have hieq : (d - n.min_aligned).toNat = i := by omega
        rw [hieq] at hbitd
        exact hbitd hbitw
    · have h1 : (decide (n.min_aligned ≤ d) && decide (d ≤ n.max_aligned)) = false := by
        rcases not_and_or.mp hin with hc | hc
        · rw [decide_eq_false hc, Bool.false_and]
        · rw [decide_eq_false hc, Bool.and_false]
      rw [h1, Bool.false_and]
      rw [decide_eq_false]
      intro hmem
      obtain ⟨i, hi, hbitw, hdi⟩ := (hmempos d).mp hmem
      omega

theorem DeleteDense_mem (m : Node) (doc : Int) (ht : m.type = NodeType.Dense)
    (hWFs : m.WFs) (hin : m.min_aligned ≤ doc ∧ doc ≤ m.max_aligned) :
    (m.DeleteDense doc).1 = 0 ∧
    (m.DeleteDense doc).2.WFs ∧
    (m.DeleteDense doc).2.type = NodeType.Dense ∧
    ∀ d, (m.DeleteDense doc).2.mem d = (m.mem d && !decide (d = doc)) := by
  obtain ⟨hA, hB, hC, hD, hE, hF, hG, hDense, hSparse⟩ := hWFs
  obtain ⟨hlen, hbits⟩ := hDense ht
  have hdel : m.DeleteDense doc =
      (0, { m with
            size := m.size - 1,
            data_dense := bitmapUnset m.data_dense (doc - m.min_aligned) }) := by
    unfold Node.DeleteDense
    rw [if_neg (by omega)]
  have rtype : (m.DeleteDense doc).2.type = NodeType.Dense := by
    rw [hdel]
    exact ht
  have rmin : (m.DeleteDense doc).2.min = m.min := by rw [hdel]
  have rmax : (m.DeleteDense doc).2.max = m.max := by rw [hdel]
  have rminA : (m.DeleteDense doc).2.min_aligned = m.min_aligned := by rw [hdel]
  have rmaxA : (m.DeleteDense doc).2.max_aligned = m.max_aligned := by rw [hdel]
  have rdata : (m.DeleteDense doc).2.data_dense
      = bitmapUnset m.data_dense (doc - m.min_aligned) := by rw [hdel]
  have rlen : (m.DeleteDense doc).2.data_dense.length = m.data_dense.length := by
    rw [rdata, length_bitmapUnset]
  have hbitu : ∀ q, getBit (m.DeleteDense doc).2.data_dense q =
      (getBit m.data_dense q &&
        !(decide ((0:Int) ≤ doc - m.min_aligned) &&
          decide ((doc - m.min_aligned).toNat = q))) := by
    intro q
    rw [rdata, getBit_bitmapUnset]
  refine ⟨by rw [hdel], ?_, rtype, ?_⟩
  · unfold Node.WFs
    rw [rtype, rmin, rmax, rminA, rmaxA]
    refine ⟨hA, hB, hC, hD, hE, hF, hG, ?_, ?_⟩
    · intro _
      refine ⟨by rw [rlen, hlen], ?_⟩
      intro p hp hbitp
      rw [hbitu p] at hbitp
      rw [rlen] at hp
      exact hbits p hp (Bool.and_elim_left hbitp)
    · intro hcon
      cases hcon
  · intro d
    have hmemr : (m.DeleteDense doc).2.mem d =
        (decide (m.min_aligned ≤ d) && decide (d ≤ m.max_aligned) &&
          getBit (m.DeleteDense doc).2.data_dense (d - m.min_aligned).toNat) := by
      simp only [Node.mem, rtype, rminA, rmaxA]
    have hmemm : m.mem d =
        (decide (m.min_aligned ≤ d) && decide (d ≤ m.max_aligned) &&
          getBit m.data_dense (d - m.min_aligned).toNat) := by
      simp only [Node.mem, ht]
    rw [hmemr, hmemm, hbitu]
    by_cases hg : m.min_aligned ≤ d ∧ d ≤ m.max_aligned
    · rw [decide_eq_true hg.1, decide_eq_true hg.2]
      simp only [Bool.true_and]
      rw [decide_eq_true (show (0:Int) ≤ doc - m.min_aligned by omega)]
      by_cases hdd : d = doc
      · subst hdd
        simp
      · rw [decide_eq_false hdd,
          decide_eq_false (show ¬((doc - m.min_aligned).toNat = (d - m.min_aligned).toNat) by omega)]
        simp
    · have h1 : (decide (m.min_aligned ≤ d) && decide (d ≤ m.max_aligned)) = false := by
        rcases not_and_or.mp hg with hc | hc
        · rw [decide_eq_false hc, Bool.false_and]
        · rw [decide_eq_false hc, Bool.and_false]
      rw [h1, Bool.false_and, Bool.false_and, Bool.false_and]

theorem AddDense_inPlace (n : Node) (doc : Int) (ht : n.type = NodeType.Dense)
    (hWFs : n.WFs) (h29 : doc < 2 ^ 29) (hsz : ¬(n.size = 0))
    (h1 : ¬(doc < n.min_aligned)) (h2 : ¬(doc > n.max_aligned)) :
    (n.AddDense doc).WFs ∧ (n.AddDense doc).type = NodeType.Dense ∧
    ((n.AddDense doc).min_aligned ≤ doc ∧ doc ≤ (n.AddDense doc).max_aligned) ∧
    ∀ d, (n.AddDense doc).mem d = (n.mem d || decide (d = doc)) := by
  obtain ⟨hA, hB, hC, hD, hE, hF, hG, hDense, hSparse⟩ := hWFs
  obtain ⟨hlen, hbits⟩ := hDense ht
  have heq : n.AddDense doc =
      { n with
        data_dense := bitmapSet n.data_dense (doc - n.min_aligned),
        min := Min.min n.min doc, max := Max.max n.max doc,
        size := n.size + 1 } := by
    unfold Node.AddDense
    rw [if_neg hsz, if_neg h1, if_neg h2]
  have rtype : (n.AddDense doc).type = NodeType.Dense := by
    rw [heq]
    exact ht
  have rmin : (n.AddDense doc).min = Min.min n.min doc := by
    rw [heq]
  have rmax : (n.AddDense doc).max = Max.max n.max doc := by
    rw [heq]
  have rminA : (n.AddDense doc).min_aligned = n.min_aligned := by rw [heq]
  have rmaxA : (n.AddDense doc).max_aligned = n.max_aligned := by rw [heq]
  have rdata : (n.AddDense doc).data_dense
      = bitmapSet n.data_dense (doc - n.min_aligned) := by rw [heq]
  have rlen : (n.AddDense doc).data_dense.length = n.data_dense.length := by
    rw [rdata, length_bitmapSet]
  have hbitw : ∀ q, getBit (n.AddDense doc).data_dense q =
      (getBit n.data_dense q ||
        (decide ((0:Int) ≤ doc - n.min_aligned) &&
          decide ((doc - n.min_aligned).toNat = q) &&
          decide (q / 64 < n.data_dense.length))) := by
    intro q
    rw [rdata, getBit_bitmapSet]
  refine ⟨?_, rtype, ?_, ?_⟩
  · unfold Node.WFs
    rw [rtype, rmin, rmax, rminA, rmaxA]
    refine ⟨hA, hB, hC, by omega, by omega, by omega, by omega, ?_, ?_⟩
    · intro _
      refine ⟨by rw [rlen, hlen], ?_⟩
      intro p hp hbitp
      rw [hbitw p] at hbitp
      rw [rlen] at hp
      rcases Bool.or_eq_true_iff.mp hbitp with hold | hnew
      · have := hbits p hp hold
        omega
      · simp only [Bool.and_eq_true, decide_eq_true_eq] at hnew
        omega
    · intro hcon
      cases hcon
  · rw [rminA, rmaxA]
    omega
  · intro d
    have hmemr : (n.AddDense doc).mem d =
        (decide (n.min_aligned ≤ d) && decide (d ≤ n.max_aligned) &&
          getBit (n.AddDense doc).data_dense (d - n.min_aligned).toNat) := by
      simp only [Node.mem, rtype, rminA, rmaxA]
    have hmemn : n.mem d =
        (decide (n.min_aligned ≤ d) && decide (d ≤ n.max_aligned) &&
          getBit n.data_dense (d - n.min_aligned).toNat) := by
      simp only [Node.mem, ht]
    rw [hmemr, hmemn, hbitw]
    by_cases hg : n.min_aligned ≤ d ∧ d ≤ n.max_aligned
    · rw [decide_eq_true hg.1, decide_eq_true hg.2]
      simp only [Bool.true_and]
      rw [decide_eq_true (show (0:Int) ≤ doc - n.min_aligned by omega)]
      by_cases hdd : d = doc
      · subst hdd
        rw [decide_eq_true (show (d - n.min_aligned).toNat / 64 < n.data_dense.length by
          rw [hlen]
          omega)]
        simp
      · rw [decide_eq_false hdd,
          decide_eq_false (show ¬((doc - n.min_aligned).toNat = (d - n.min_aligned).toNat) by omega)]
        simp
    · have hgb : (decide (n.min_aligned ≤ d) && decide (d ≤ n.max_aligned)) = false := by
        rcases not_and_or.mp hg with hc | hc
        · rw [decide_eq_false hc, Bool.false_and]
        · rw [decide_eq_false hc, Bool.and_false]
      rw [hgb, Bool.false_and, Bool.false_and, Bool.false_or]
      symm
      rw [decide_eq_false]
      omega

theorem AddDense_empty (n : Node) (doc : Int) (ht : n.type = NodeType.Dense)
    (hWFs : n.WFs) (h0 : 0 ≤ doc) (h29 : doc < 2 ^ 29)
    (hsz : n.size = 0) (hzero : ∀ d, n.mem d = false) :
    (n.AddDense doc).WFs ∧ (n.AddDense doc).type = NodeType.Dense ∧
    ((n.AddDense doc).min_aligned ≤ doc ∧ doc ≤ (n.AddDense doc).max_aligned) ∧
    ∀ d, (n.AddDense doc).mem d = (n.mem d || decide (d = doc)) := by
  obtain ⟨hA, hB, hC, hD, hE, hF, hG, hDense, hSparse⟩ := hWFs
  have heq : n.AddDense doc =
      { n with
        min := doc, max := doc, min_aligned := (doc / 64) * 64,
        max_aligned := (doc / 64 + 1) * 64 - 1,
        data_dense := bitmapSet
          (bitmapCreate ((doc / 64 + 1) * 64 - 1 - (doc / 64) * 64 + 1))
          (doc - (doc / 64) * 64),
        size := n.size + 1 } := by
    unfold Node.AddDense
    rw [if_pos hsz]
  have rtype : (n.AddDense doc).type = NodeType.Dense := by
    rw [heq]
    exact ht
  have rmin : (n.AddDense doc).min = doc := by rw [heq]
  have rmax : (n.AddDense doc).max = doc := by rw [heq]
  have rminA : (n.AddDense doc).min_aligned = (doc / 64) * 64 := by rw [heq]
  have rmaxA : (n.AddDense doc).max_aligned = (doc / 64 + 1) * 64 - 1 := by rw [heq]
  have rdata : (n.AddDense doc).data_dense = bitmapSet
      (bitmapCreate ((doc / 64 + 1) * 64 - 1 - (doc / 64) * 64 + 1))
      (doc - (doc / 64) * 64) := by rw [heq]
  have hclen : (bitmapCreate ((doc / 64 + 1) * 64 - 1 - (doc / 64) * 64 + 1)).length
      = (((doc / 64 + 1) * 64 - 1 - (doc / 64) * 64 + 1) / 64).toNat := by
    unfold bitmapCreate
    exact List.length_replicate _ _
  have rlen : (n.AddDense doc).data_dense.length
      = (((doc / 64 + 1) * 64 - 1 - (doc / 64) * 64 + 1) / 64).toNat := by
    rw [rdata, length_bitmapSet, hclen]
  have hbitw : ∀ q, getBit (n.AddDense doc).data_dense q =
      (decide ((0:Int) ≤ doc - (doc / 64) * 64) &&
        decide ((doc - (doc / 64) * 64).toNat = q) &&
        decide (q / 64 < (((doc / 64 + 1) * 64 - 1 - (doc / 64) * 64 + 1) / 64).toNat)) := by
    intro q
    rw [rdata, getBit_bitmapSet, getBit_bitmapCreate, Bool.false_or, hclen]
  refine ⟨?_, rtype, ?_, ?_⟩
  · unfold Node.WFs
    rw [rtype, rmin, rmax, rminA, rmaxA]
    refine ⟨by omega, by omega, by omega, by omega, by omega, by omega, by omega, ?_, ?_⟩
    · intro _
      refine ⟨by rw [rlen], ?_⟩
      intro p hp hbitp
      rw [hbitw p] at hbitp
      simp only [Bool.and_eq_true, decide_eq_true_eq] at hbitp
      omega
    · intro hcon
      cases hcon
  · rw [rminA, rmaxA]
    omega
  · intro d
    have hmemr : (n.AddDense doc).mem d =
        (decide ((doc / 64) * 64 ≤ d) && decide (d ≤ (doc / 64 + 1) * 64 - 1) &&
          getBit (n.AddDense doc).data_dense (d - (doc / 64) * 64).toNat) := by
      simp only [Node.mem, rtype, rminA, rmaxA]
    rw [hmemr, hzero d, Bool.false_or, hbitw]
    by_cases hdd : d = doc
    · subst hdd
      rw [decide_eq_true (show (d / 64) * 64 ≤ d by omega),
        decide_eq_true (show d ≤ (d / 64 + 1) * 64 - 1 by omega),
        decide_eq_true (show (0:Int) ≤ d - (d / 64) * 64 by omega),
        decide_eq_true (show (d - (d / 64) * 64).toNat / 64 <
          (((d / 64 + 1) * 64 - 1 - (d / 64) * 64 + 1) / 64).toNat by omega)]
      simp
    · rw [decide_eq_false hdd]
      by_cases hg : (doc / 64) * 64 ≤ d ∧ d ≤ (doc / 64 + 1) * 64 - 1
      · rw [decide_eq_false (show ¬((doc - (doc / 64) * 64).toNat
            = (d - (doc / 64) * 64).toNat) by omega)]
        simp
      · have hgb : (decide ((doc / 64) * 64 ≤ d) &&
            decide (d ≤ (doc / 64 + 1) * 64 - 1)) = false := by
          rcases not_and_or.mp hg with hc | hc
          · rw [decide_eq_false hc, Bool.false_and]
          · rw [decide_eq_false hc, Bool.and_false]
        rw [hgb, Bool.false_and]

theorem AddDense_growUp (n : Node) (doc : Int) (ht : n.type = NodeType.Dense)
    (hWFs : n.WFs) (h0 : 0 ≤ doc) (h29 : doc < 2 ^ 29)
    (hsz : ¬(n.size = 0)) (h1 : ¬(doc < n.min_aligned)) (h2 : doc > n.max_aligned) :
    (n.AddDense doc).WFs ∧ (n.AddDense doc).type = NodeType.Dense ∧
    ((n.AddDense doc).min_aligned ≤ doc ∧ doc ≤ (n.AddDense doc).max_aligned) ∧
    ∀ d, (n.AddDense doc).mem d = (n.mem d || decide (d = doc)) := by
  obtain ⟨hA, hB, hC, hD, hE, hF, hG, hDense, hSparse⟩ := hWFs
  obtain ⟨hlen, hbits⟩ := hDense ht
  have heq : n.AddDense doc =
      { n with
        max := doc, max_aligned := (doc / 64 + 1) * 64 * 2 - 1,
        data_dense := bitmapSet
          (copyWords (bitmapCreate ((doc / 64 + 1) * 64 * 2 - 1 - n.min_aligned + 1))
            n.data_dense 0 ((n.max_aligned - n.min_aligned + 1) / 64).toNat)
          (doc - n.min_aligned),
        size := n.size + 1 } := by
    unfold Node.AddDense
    rw [if_neg hsz, if_neg h1, if_pos h2]
  have rtype : (n.AddDense doc).type = NodeType.Dense := by
    rw [heq]
    exact ht
  have rmin : (n.AddDense doc).min = n.min := by rw [heq]
  have rmax : (n.AddDense doc).max = doc := by rw [heq]
  have rminA : (n.AddDense doc).min_aligned = n.min_aligned := by rw [heq]
  have rmaxA : (n.AddDense doc).max_aligned = (doc / 64 + 1) * 64 * 2 - 1 := by rw [heq]
  have rdata : (n.AddDense doc).data_dense = bitmapSet
      (copyWords (bitmapCreate ((doc / 64 + 1) * 64 * 2 - 1 - n.min_aligned + 1))
        n.data_dense 0 ((n.max_aligned - n.min_aligned + 1) / 64).toNat)
      (doc - n.min_aligned) := by rw [heq]
  have hclen : (bitmapCreate ((doc / 64 + 1) * 64 * 2 - 1 - n.min_aligned + 1)).length
      = (((doc / 64 + 1) * 64 * 2 - 1 - n.min_aligned + 1) / 64).toNat := by
    unfold bitmapCreate
    exact List.length_replicate _ _
  have rlen : (n.AddDense doc).data_dense.length
      = (((doc / 64 + 1) * 64 * 2 - 1 - n.min_aligned + 1) / 64).toNat := by
    rw [rdata, length_bitmapSet, length_copyWords, hclen]
  have hbitC : ∀ q, getBit
      (copyWords (bitmapCreate ((doc / 64 + 1) * 64 * 2 - 1 - n.min_aligned + 1))
        n.data_dense 0 ((n.max_aligned - n.min_aligned + 1) / 64).toNat) q =
      if 0 ≤ q / 64 ∧ q / 64 < 0 + ((n.max_aligned - n.min_aligned + 1) / 64).toNat ∧
          q / 64 < (((doc / 64 + 1) * 64 * 2 - 1 - n.min_aligned + 1) / 64).toNat then
        getBit n.data_dense (q - 64 * 0)
      else false := by
    intro q
    rw [getBit_copyWords, hclen, getBit_bitmapCreate]
  have hbitw : ∀ q, getBit (n.AddDense doc).data_dense q =
      ((if 0 ≤ q / 64 ∧ q / 64 < 0 + ((n.max_aligned - n.min_aligned + 1) / 64).toNat ∧
          q / 64 < (((doc / 64 + 1) * 64 * 2 - 1 - n.min_aligned + 1) / 64).toNat then
        getBit n.data_dense (q - 64 * 0)
      else false) ||
        (decide ((0:Int) ≤ doc - n.min_aligned) &&
          decide ((doc - n.min_aligned).toNat = q) &&
          decide (q / 64 <
            (((doc / 64 + 1) * 64 * 2 - 1 - n.min_aligned + 1) / 64).toNat))) := by
    intro q
    rw [rdata, getBit_bitmapSet, length_copyWords, hclen, hbitC]
  refine ⟨?_, rtype, ?_, ?_⟩
  · unfold Node.WFs
    rw [rtype, rmin, rmax, rminA, rmaxA]
    refine ⟨hA, hB, by omega, hD, by omega, by omega, by omega, ?_, ?_⟩
    · intro _
      refine ⟨by rw [rlen], ?_⟩
      intro p hp hbitp
      rw [hbitw p] at hbitp
      rcases Bool.or_eq_true_iff.mp hbitp with hold | hnew
      · have hcond : 0 ≤ p / 64 ∧
            p / 64 < 0 + ((n.max_aligned - n.min_aligned + 1) / 64).toNat ∧
            p / 64 < (((doc / 64 + 1) * 64 * 2 - 1 - n.min_aligned + 1) / 64).toNat := by
          by_contra hc
          rw [if_neg hc] at hold
          cases hold
        rw [if_pos hcond] at hold
        have hplt : p - 64 * 0 < n.data_dense.length * 64 := by
          rw [hlen]
          omega
        have := hbits (p - 64 * 0) hplt hold
        omega
      · simp only [Bool.and_eq_true, decide_eq_true_eq] at hnew
        omega
    · intro hcon
      cases hcon
  · rw [rminA, rmaxA]
    omega
  · intro d
    have hmemr : (n.AddDense doc).mem d =
        (decide (n.min_aligned ≤ d) && decide (d ≤ (doc / 64 + 1) * 64 * 2 - 1) &&
          getBit (n.AddDense doc).data_dense (d - n.min_aligned).toNat) := by
      simp only [Node.mem, rtype, rminA, rmaxA]
    have hmemn : n.mem d =
        (decide (n.min_aligned ≤ d) && decide (d ≤ n.max_aligned) &&
          getBit n.data_dense (d - n.min_aligned).toNat) := by
      simp only [Node.mem, ht]
    rw [hmemr, hmemn, hbitw]
    by_cases hdd : d = doc
    · subst hdd
      rw [decide_eq_true (show n.min_aligned ≤ d by omega),
        decide_eq_true (show d ≤ (d / 64 + 1) * 64 * 2 - 1 by omega),
        decide_eq_true (show (0:Int) ≤ d - n.min_aligned by omega),
        decide_eq_true (show (d - n.min_aligned).toNat / 64 <
          (((d / 64 + 1) * 64 * 2 - 1 - n.min_aligned + 1) / 64).toNat by omega)]
      simp
    · rw [decide_eq_false hdd,
        decide_eq_false (show ¬((doc - n.min_aligned).toNat
          = (d - n.min_aligned).toNat) by omega)]
      simp only [Bool.and_false, Bool.false_and, Bool.or_false]
      by_cases hg1 : n.min_aligned ≤ d
      · rw [decide_eq_true hg1]
        by_cases hg2 : d ≤ n.max_aligned
        · rw [decide_eq_true hg2,
            decide_eq_true (show d ≤ (doc / 64 + 1) * 64 * 2 - 1 by omega)]
          rw [if_pos (show 0 ≤ (d - n.min_aligned).toNat / 64 ∧
              (d - n.min_aligned).toNat / 64 <
                0 + ((n.max_aligned - n.min_aligned + 1) / 64).toNat ∧
              (d - n.min_aligned).toNat / 64 <
                (((doc / 64 + 1) * 64 * 2 - 1 - n.min_aligned + 1) / 64).toNat by
            refine ⟨by omega, by omega, by omega⟩)]
          rw [show (d - n.min_aligned).toNat - 64 * 0 = (d - n.min_aligned).toNat by omega]
        · rw [decide_eq_false hg2]
          simp only [Bool.and_false, Bool.false_and]
          by_cases hg3 : d ≤ (doc / 64 + 1) * 64 * 2 - 1
          · rw [decide_eq_true hg3]
            rw [if_neg (show ¬(0 ≤ (d - n.min_aligned).toNat / 64 ∧
                (d - n.min_aligned).toNat / 64 <
                  0 + ((n.max_aligned - n.min_aligned + 1) / 64).toNat ∧
                (d - n.min_aligned).toNat / 64 <
                  (((doc / 64 + 1) * 64 * 2 - 1 - n.min_aligned + 1) / 64).toNat) by
              intro hcon
              omega)]
            simp
          · rw [decide_eq_false hg3]
            simp
      · rw [decide_eq_false hg1]
        simp

theorem AddDense_growDown (n : Node) (doc : Int) (ht : n.type = NodeType.Dense)
    (hWFs : n.WFs) (h0 : 0 ≤ doc)
    (hsz : ¬(n.size = 0)) (h1 : doc < n.min_aligned) :
    (n.AddDense doc).WFs ∧ (n.AddDense doc).type = NodeType.Dense ∧
    ((n.AddDense doc).min_aligned ≤ doc ∧ doc ≤ (n.AddDense doc).max_aligned) ∧
    ∀ d, (n.AddDense doc).mem d = (n.mem d || decide (d = doc)) := by
  obtain ⟨hA, hB, hC, hD, hE, hF, hG, hDense, hSparse⟩ := hWFs
  obtain ⟨hlen, hbits⟩ := hDense ht
  have heq : n.AddDense doc =
      { n with
        min := doc, min_aligned := (doc / 64) * 64,
        data_dense := bitmapSet
          (copyWords (bitmapCreate (n.max_aligned - (doc / 64) * 64 + 1))
            n.data_dense ((n.min_aligned - (doc / 64) * 64) / 64).toNat
            ((n.max_aligned - n.min_aligned + 1) / 64).toNat)
          (doc - (doc / 64) * 64),
        size := n.size + 1 } := by
    unfold Node.AddDense
    rw [if_neg hsz, if_pos h1]
  have rtype : (n.AddDense doc).type = NodeType.Dense := by
    rw [heq]
    exact ht
  have rmin : (n.AddDense doc).min = doc := by rw [heq]
  have rmax : (n.AddDense doc).max = n.max := by rw [heq]
  have rminA : (n.AddDense doc).min_aligned = (doc / 64) * 64 := by rw [heq]
  have rmaxA : (n.AddDense doc).max_aligned = n.max_aligned := by rw [heq]
  have rdata : (n.AddDense doc).data_dense = bitmapSet
      (copyWords (bitmapCreate (n.max_aligned - (doc / 64) * 64 + 1))
        n.data_dense ((n.min_aligned - (doc / 64) * 64) / 64).toNat
        ((n.max_aligned - n.min_aligned + 1) / 64).toNat)
      (doc - (doc / 64) * 64) := by rw [heq]
  have hclen : (bitmapCreate (n.max_aligned - (doc / 64) * 64 + 1)).length
      = ((n.max_aligned - (doc / 64) * 64 + 1) / 64).toNat := by
    unfold bitmapCreate
    exact List.length_replicate _ _
  have rlen : (n.AddDense doc).data_dense.length
      = ((n.max_aligned - (doc / 64) * 64 + 1) / 64).toNat := by
    rw [rdata, length_bitmapSet, length_copyWords, hclen]
  have hbitC : ∀ q, getBit
      (copyWords (bitmapCreate (n.max_aligned - (doc / 64) * 64 + 1))
        n.data_dense ((n.min_aligned - (doc / 64) * 64) / 64).toNat
        ((n.max_aligned - n.min_aligned + 1) / 64).toNat) q =
      if ((n.min_aligned - (doc / 64) * 64) / 64).toNat ≤ q / 64 ∧
          q / 64 < ((n.min_aligned - (doc / 64) * 64) / 64).toNat +
            ((n.max_aligned - n.min_aligned + 1) / 64).toNat ∧
          q / 64 < ((n.max_aligned - (doc / 64) * 64 + 1) / 64).toNat then
        getBit n.data_dense (q - 64 * ((n.min_aligned - (doc / 64) * 64) / 64).toNat)
      else false := by
    intro q
    rw [getBit_copyWords, hclen, getBit_bitmapCreate]
  have hbitw : ∀ q, getBit (n.AddDense doc).data_dense q =
      ((if ((n.min_aligned - (doc / 64) * 64) / 64).toNat ≤ q / 64 ∧
          q / 64 < ((n.min_aligned - (doc / 64) * 64) / 64).toNat +
            ((n.max_aligned - n.min_aligned + 1) / 64).toNat ∧
          q / 64 < ((n.max_aligned - (doc / 64) * 64 + 1) / 64).toNat then
        getBit n.data_dense (q - 64 * ((n.min_aligned - (doc / 64) * 64) / 64).toNat)
      else false) ||
        (decide ((0:Int) ≤ doc - (doc / 64) * 64) &&
          decide ((doc - (doc / 64) * 64).toNat = q) &&
          decide (q / 64 < ((n.max_aligned - (doc / 64) * 64 + 1) / 64).toNat))) := by
    intro q
    rw [rdata, getBit_bitmapSet, length_copyWords, hclen, hbitC]
  refine ⟨?_, rtype, ?_, ?_⟩
  · unfold Node.WFs
    rw [rtype, rmin, rmax, rminA, rmaxA]
    refine ⟨by omega, by omega, hC, by omega, by omega, hF, hG, ?_, ?_⟩
    · intro _
      refine ⟨by rw [rlen], ?_⟩
      intro p hp hbitp
      rw [hbitw p] at hbitp
      rcases Bool.or_eq_true_iff.mp hbitp with hold | hnew
      · have hcond : ((n.min_aligned - (doc / 64) * 64) / 64).toNat ≤ p / 64 ∧
            p / 64 < ((n.min_aligned - (doc / 64) * 64) / 64).toNat +
              ((n.max_aligned - n.min_aligned + 1) / 64).toNat ∧
            p / 64 < ((n.max_aligned - (doc / 64) * 64 + 1) / 64).toNat := by
          by_contra hc
          rw [if_neg hc] at hold
          cases hold
        rw [if_pos hcond] at hold
        have hplt : p - 64 * ((n.min_aligned - (doc / 64) * 64) / 64).toNat
            < n.data_dense.length * 64 := by
          rw [hlen]
          omega
        have := hbits _ hplt hold
        omega
      · simp only [Bool.and_eq_true, decide_eq_true_eq] at hnew
        omega
    · intro hcon
      cases hcon
  · rw [rminA, rmaxA]
    omega
  · intro d
    have hmemr : (n.AddDense doc).mem d =
        (decide ((doc / 64) * 64 ≤ d) && decide (d ≤ n.max_aligned) &&
          getBit (n.AddDense doc).data_dense (d - (doc / 64) * 64).toNat) := by
      simp only [Node.mem, rtype, rminA, rmaxA]
    have hmemn : n.mem d =
        (decide (n.min_aligned ≤ d) && decide (d ≤ n.max_aligned) &&
          getBit n.data_dense (d - n.min_aligned).toNat) := by
      simp only [Node.mem, ht]
    rw [hmemr, hmemn, hbitw]
    by_cases hdd : d = doc
    · subst hdd
      rw [decide_eq_true (show (d / 64) * 64 ≤ d by omega),
        decide_eq_true (show d ≤ n.max_aligned by omega),
        decide_eq_true (show (0:Int) ≤ d - (d / 64) * 64 by omega),
        decide_eq_true (show (d - (d / 64) * 64).toNat / 64 <
          ((n.max_aligned - (d / 64) * 64 + 1) / 64).toNat by omega)]
      simp
    · rw [decide_eq_false hdd]
      by_cases hg2 : d ≤ n.max_aligned
      · rw [decide_eq_true hg2]
        by_cases hg1 : n.min_aligned ≤ d
        · rw [decide_eq_true hg1,
            decide_eq_true (show (doc / 64) * 64 ≤ d by omega),
            decide_eq_false (show ¬((doc - (doc / 64) * 64).toNat
              = (d - (doc / 64) * 64).toNat) by omega)]
          simp only [Bool.and_false, Bool.false_and, Bool.or_false, Bool.true_and]
          rw [if_pos (show ((n.min_aligned - (doc / 64) * 64) / 64).toNat ≤
              (d - (doc / 64) * 64).toNat / 64 ∧
              (d - (doc / 64) * 64).toNat / 64 <
                ((n.min_aligned - (doc / 64) * 64) / 64).toNat +
                  ((n.max_aligned - n.min_aligned + 1) / 64).toNat ∧
              (d - (doc / 64) * 64).toNat / 64 <
                ((n.max_aligned - (doc / 64) * 64 + 1) / 64).toNat by
            refine ⟨by omega, by omega, by omega⟩)]
          rw [show (d - (doc / 64) * 64).toNat -
              64 * ((n.min_aligned - (doc / 64) * 64) / 64).toNat
              = (d - n.min_aligned).toNat by omega]
        · rw [decide_eq_false hg1]
          by_cases hg0 : (doc / 64) * 64 ≤ d
          · rw [decide_eq_true hg0,
              decide_eq_false (show ¬((doc - (doc / 64) * 64).toNat
                = (d - (doc / 64) * 64).toNat) by omega)]
            rw [if_neg (show ¬(((n.min_aligned - (doc / 64) * 64) / 64).toNat ≤
                (d - (doc / 64) * 64).toNat / 64 ∧
                (d - (doc / 64) * 64).toNat / 64 <
                  ((n.min_aligned - (doc / 64) * 64) / 64).toNat +
                    ((n.max_aligned - n.min_aligned + 1) / 64).toNat ∧
                (d - (doc / 64) * 64).toNat / 64 <
                  ((n.max_aligned - (doc / 64) * 64 + 1) / 64).toNat) by
              intro hcon
              omega)]
            simp
          · rw [decide_eq_false hg0]
            simp
      · rw [decide_eq_false hg2]
        simp

theorem AddDense_mem (n : Node) (doc : Int) (ht : n.type = NodeType.Dense)
    (hWFs : n.WFs) (h0 : 0 ≤ doc) (h29 : doc < 2 ^ 29)
    (hzero : n.size = 0 → ∀ d, n.mem d = false) :
    (n.AddDense doc).WFs ∧ (n.AddDense doc).type = NodeType.Dense ∧
    ((n.AddDense doc).min_aligned ≤ doc ∧ doc ≤ (n.AddDense doc).max_aligned) ∧
    ∀ d, (n.AddDense doc).mem d = (n.mem d || decide (d = doc)) := by
  by_cases hsz : n.size = 0
  · exact AddDense_empty n doc ht hWFs h0 h29 hsz (hzero hsz)
  · by_cases h1 : doc < n.min_aligned
    · exact AddDense_growDown n doc ht hWFs h0 hsz h1
    · by_cases h2 : doc > n.max_aligned
      · exact AddDense_growUp n doc ht hWFs h0 h29 hsz h1 h2
      · exact AddDense_inPlace n doc ht hWFs h29 hsz h1 h2

/-- Add-then-Delete roundtrip on one node: inserting a value the node does
not currently hold and deleting it again yields a node that is
search-wellformed and holds exactly the doc ids held before. -/
theorem node_add_delete (n : Node) (doc : Int) (hWF : n.WF)
    (h0 : 0 ≤ doc) (h29 : doc < 2 ^ 29) (hfresh : n.mem doc = false) :
    ((n.Add doc).Delete doc).2.WFs ∧
    ∀ d, ((n.Add doc).Delete doc).2.mem d = n.mem d := by
  obtain ⟨hWFs, hcount, hnodup⟩ := hWF
  cases htype : n.type with
  | Dense =>
    by_cases hg : n.max - n.min > 100000 ∧ 100 * n.size < 8 * (n.max - n.min)
    · have hadd : n.Add doc = (n.ConvertToSparse).AddSparse doc := by
        unfold Node.Add
        rw [if_pos htype, if_pos hg]
      obtain ⟨hcW, hcT, hcM⟩ := ConvertToSparse_mem n htype ⟨hWFs, hcount, hnodup⟩
      have hfresh2 : doc ∉ (n.ConvertToSparse).data_sparse :=
        not_mem_data_of_mem_false _ hcT hcW doc (by rw [hcM doc]; exact hfresh)
      obtain ⟨_, hdW, hdT, hdM⟩ :=
        sparse_add_delete (n.ConvertToSparse) doc hcT hcW h0 h29 hfresh2
      have hdel : ((n.Add doc).Delete doc)
          = ((n.ConvertToSparse).AddSparse doc).DeleteSparse doc := by
        rw [hadd]
        unfold Node.Delete
        rw [if_neg (by
          rw [AddSparse_type, ConvertToSparse_type]
          intro hcon
          cases hcon)]
      rw [hdel]
      exact ⟨hdW, fun d => by rw [hdM d, hcM d]⟩
    · have hadd : n.Add doc = n.AddDense doc := by
        unfold Node.Add
        rw [if_pos htype, if_neg hg]
      have hzero : n.size = 0 → ∀ d, n.mem d = false := by
        intro hsz d
        have hc := hcount htype
        have hball := countBits_eq_zero n.data_dense (by omega)
        have hm : n.mem d = (decide (n.min_aligned ≤ d) && decide (d ≤ n.max_aligned) &&
            getBit n.data_dense (d - n.min_aligned).toNat) := by
          simp only [Node.mem, htype]
        rw [hm, hball]
        simp
      obtain ⟨haW, haT, haIn, haM⟩ := AddDense_mem n doc htype hWFs h0 h29 hzero
      have hdel : ((n.Add doc).Delete doc) = (n.AddDense doc).DeleteDense doc := by
        rw [hadd]
        unfold Node.Delete
        rw [if_pos haT]
      obtain ⟨_, hdW, hdT, hdM⟩ := DeleteDense_mem (n.AddDense doc) doc haT haW haIn
      rw [hdel]
      refine ⟨hdW, fun d => ?_⟩
      rw [hdM d, haM d]
      by_cases hdd : d = doc
      · subst hdd
        rw [hfresh, decide_eq_true rfl]
        simp
      · rw [decide_eq_false hdd]
        simp
  | Sparse =>
    by_cases hg : n.max - n.min > 100000 ∧ 10 * n.size > n.max - n.min
    · obtain ⟨hg1, hg2⟩ := hg
      have hadd : n.Add doc = (n.ConvertToDense).AddDense doc := by
        unfold Node.Add
        rw [if_neg (by rw [htype]; intro hcon; cases hcon), if_pos ⟨hg1, hg2⟩]
      obtain ⟨hcW, hcT, hcS, hcM⟩ := ConvertToDense_mem n htype hWFs
      have hzero : (n.ConvertToDense).size = 0 →
          ∀ d, (n.ConvertToDense).mem d = false := by
        intro hsz
        rw [hcS] at hsz
        exact absurd hsz (by omega)
      obtain ⟨haW, haT, haIn, haM⟩ := AddDense_mem (n.ConvertToDense) doc hcT hcW h0 h29 hzero
      obtain ⟨_, hdW, hdT, hdM⟩ :=
        DeleteDense_mem ((n.ConvertToDense).AddDense doc) doc haT haW haIn
      have hdel : ((n.Add doc).Delete doc)
          = ((n.ConvertToDense).AddDense doc).DeleteDense doc := by
        rw [hadd]
        unfold Node.Delete
        rw [if_pos haT]
      rw [hdel]
      refine ⟨hdW, fun d => ?_⟩
      rw [hdM d, haM d, hcM d]
      by_cases hdd : d = doc
      · subst hdd
        rw [hfresh, decide_eq_true rfl]
        simp
      · rw [decide_eq_false hdd]
        simp
    · have hadd : n.Add doc = n.AddSparse doc := by
        unfold Node.Add
        rw [if_neg (by rw [htype]; intro hcon; cases hcon), if_neg hg]
      have hfresh2 : doc ∉ n.data_sparse :=
        not_mem_data_of_mem_false n htype hWFs doc hfresh
      obtain ⟨_, hdW, hdT, hdM⟩ := sparse_add_delete n doc htype hWFs h0 h29 hfresh2
      have hdel : ((n.Add doc).Delete doc) = (n.AddSparse doc).DeleteSparse doc := by
        rw [hadd]
        unfold Node.Delete
        rw [if_neg (by rw [AddSparse_type, htype]; intro hcon; cases hcon)]
      rw [hdel]
      exact ⟨hdW, hdM⟩

/-- Add-then-Delete roundtrip starting from a fresh node (the find-or-create
path of `FieldRangeIndex::Add` when the key is absent): the surviving node is
search-wellformed and holds no doc ids. -/
theorem init_add_delete (doc : Int) (h0 : 0 ≤ doc) (h29 : doc < 2 ^ 29) :
    ((Node.init.Add doc).Delete doc).2.WFs ∧
    ∀ d, ((Node.init.Add doc).Delete doc).2.mem d = false := by
  have hadd : Node.init.Add doc = Node.init.AddSparse doc := by
    unfold Node.Add
    rw [if_neg (show ¬(Node.init.type = NodeType.Dense) by decide),
      if_neg (show ¬(Node.init.max - Node.init.min > 100000 ∧
        10 * Node.init.size > Node.init.max - Node.init.min) by decide)]
  have hB : Node.init.AddSparse doc =
      { Node.init with
        min := Min.min Node.init.min doc, max := Max.max Node.init.max doc,
        min_aligned := (doc / 64) * 64, max_aligned := (doc / 64 + 1) * 64 - 1,
        capacity := 1,
        data_sparse := Node.init.data_sparse.take Node.init.size.toNat ++ [doc],
        size := Node.init.size + 1 } := by
    unfold Node.AddSparse
    rw [if_pos (show doc < Node.init.min_aligned from by
        show doc < 2147483647
        omega),
      if_pos (show doc > Node.init.max_aligned from by
        show doc > -1
        omega),
      if_pos (show Node.init.capacity = 0 from rfl)]
  have hlive : (Node.init.AddSparse doc).data_sparse.take
      (Node.init.AddSparse doc).size.toNat = [doc] := by
    rw [hB]
    rfl
  have hmem : doc ∈ (Node.init.AddSparse doc).data_sparse.take
      (Node.init.AddSparse doc).size.toNat := by
    rw [hlive]
    exact List.mem_singleton.mpr rfl
  have hdel1 : (Node.init.AddSparse doc).Delete doc
      = (Node.init.AddSparse doc).DeleteSparse doc := by
    unfold Node.Delete
    rw [if_neg (show ¬((Node.init.AddSparse doc).type = NodeType.Dense) by
      rw [AddSparse_type]
      decide)]
  have hdel2 : (Node.init.AddSparse doc).DeleteSparse doc
      = (0, { Node.init.AddSparse doc with
              size := (Node.init.AddSparse doc).size - 1,
              data_sparse := ((Node.init.AddSparse doc).data_sparse.take
                (Node.init.AddSparse doc).size.toNat).erase doc }) := by
    simp only [Node.DeleteSparse]
    rw [if_pos hmem]
  have rtype : ((Node.init.Add doc).Delete doc).2.type = NodeType.Sparse := by
    rw [hadd, hdel1, hdel2, hB]
    rfl
  have rmin : ((Node.init.Add doc).Delete doc).2.min = doc := by
    rw [hadd, hdel1, hdel2, hB]
    show Min.min (2147483647 : Int) doc = doc
    omega
  have rmax : ((Node.init.Add doc).Delete doc).2.max = doc := by
    rw [hadd, hdel1, hdel2, hB]
    show Max.max (-1 : Int) doc = doc
    omega
  have rminA : ((Node.init.Add doc).Delete doc).2.min_aligned = (doc / 64) * 64 := by
    rw [hadd, hdel1, hdel2, hB]
  have rmaxA : ((Node.init.Add doc).Delete doc).2.max_aligned
      = (doc / 64 + 1) * 64 - 1 := by
    rw [hadd, hdel1, hdel2, hB]
  have rsize : ((Node.init.Add doc).Delete doc).2.size = 0 := by
    rw [hadd, hdel1, hdel2, hB]
    show (0 : Int) + 1 - 1 = 0
    omega
  have rdata : ((Node.init.Add doc).Delete doc).2.data_sparse = [] := by
    rw [hadd, hdel1, hdel2]
    show ((Node.init.AddSparse doc).data_sparse.take
      (Node.init.AddSparse doc).size.toNat).erase doc = []
    rw [hlive]
    exact List.erase_cons_head doc []
  refine ⟨?_, ?_⟩
  · unfold Node.WFs
    rw [rtype, rmin, rmax, rminA, rmaxA, rsize, rdata]
    refine ⟨by omega, by omega, by omega, by omega, by omega, by omega, by omega, ?_, ?_⟩
    · intro hcon
      cases hcon
    · intro _
      refine ⟨by simp, ?_⟩
      intro v hv
      cases hv
  · intro d
    have hm : ((Node.init.Add doc).Delete doc).2.mem d
        = (((Node.init.Add doc).Delete doc).2.data_sparse.take
            ((Node.init.Add doc).Delete doc).2.size.toNat).contains d := by
      simp only [Node.mem, rtype]
    rw [hm, rdata, rsize]
    rfl

theorem lookup_none_keys (k : List Nat) :
    ∀ store : List (List Nat × Node), store.lookup k = none →
      ∀ e ∈ store, ¬(e.1 = k) := by
  intro store
  induction store with
  | nil =>
    intro _ e he
    cases he
  | cons x t ih =>
    obtain ⟨a, b⟩ := x
    intro h e he
    simp only [List.lookup] at h
    cases hbeq : (k == a) with
    | true =>
      simp only [hbeq] at h
      cases h
    | false =>
      simp only [hbeq] at h
      rcases List.mem_cons.mp he with he1 | he2
      · subst he1
        intro hc
        exact ne_of_beq_false hbeq hc.symm
      · exact ih h e he2

theorem mem_collectNodes (store : List (List Nat × Node)) (kl ku : List Nat)
    (n : Node) (h : n ∈ collectNodes store kl ku) : ∃ e ∈ store, e.2 = n := by
  unfold collectNodes at h
  obtain ⟨e, he, hee⟩ := List.mem_map.mp h
  exact ⟨e, (List.mem_filter.mp he).1, hee⟩

theorem collectNodes_cons (x : List Nat × Node) (t : List (List Nat × Node))
    (kl ku : List Nat) :
    collectNodes (x :: t) kl ku =
      if keyLe kl x.1 && keyLe x.1 ku then x.2 :: collectNodes t kl ku
      else collectNodes t kl ku := by
  simp only [collectNodes, List.filter_cons]
  by_cases hc : (keyLe kl x.1 && keyLe x.1 ku) = true
  · rw [if_pos hc, if_pos hc, List.map_cons]
  · rw [if_neg hc, if_neg hc]

theorem collectNodes_append (s t : List (List Nat × Node)) (kl ku : List Nat) :
    collectNodes (s ++ t) kl ku = collectNodes s kl ku ++ collectNodes t kl ku := by
  unfold collectNodes
  rw [List.filter_append, List.map_append]

theorem any_collect_map (kl ku : List Nat) (f : List Nat × Node → List Nat × Node)
    (md : Node → Bool) :
    ∀ store : List (List Nat × Node),
      (∀ e ∈ store, (f e).1 = e.1) →
      (∀ e ∈ store, md (f e).2 = md e.2) →
      (collectNodes (store.map f) kl ku).any md = (collectNodes store kl ku).any md := by
  intro store
  induction store with
  | nil =>
    intro _ _
    rfl
  | cons x t ih =>
    intro hkey hmd
    rw [List.map_cons, collectNodes_cons, collectNodes_cons,
      hkey x (List.mem_cons_self x t)]
    by_cases hc : (keyLe kl x.1 && keyLe x.1 ku) = true
    · rw [if_pos hc, if_pos hc, List.any_cons, List.any_cons,
        hmd x (List.mem_cons_self x t),
        ih (fun e he => hkey e (List.mem_cons_of_mem x he))
          (fun e he => hmd e (List.mem_cons_of_mem x he))]
    · rw [if_neg hc, if_neg hc,
        ih (fun e he => hkey e (List.mem_cons_of_mem x he))
          (fun e he => hmd e (List.mem_cons_of_mem x he))]

theorem assembleNum_step (min_doc max_doc minA maxA : Int) (acc : List Nat × Int)
    (n : Node) (hWFs : n.WFs) (h1 : minA ≤ n.min_aligned) (h2 : n.max_aligned ≤ maxA)
    (h3 : min_doc ≤ n.min) (h4 : n.max ≤ max_doc)
    (hm64 : minA % 64 = 0) (hM64 : (maxA + 1) % 64 = 0)
    (hlen : acc.1.length = ((maxA - minA + 1) / 64).toNat) :
    (assembleNum min_doc max_doc minA maxA acc n).1.length = acc.1.length ∧
    ∀ q : Nat, getBit (assembleNum min_doc max_doc minA maxA acc n).1 q
      = (getBit acc.1 q || n.mem (minA + (q : Int))) := by
  obtain ⟨hA, hB, hC, hD, hE, hF, hG, hDense, hSparse⟩ := hWFs
  cases htype : n.type with
  | Dense =>
    obtain ⟨hdlen, hdbits⟩ := hDense htype
    have heq : assembleNum min_doc max_doc minA maxA acc n
        = (orWords acc.1 n.data_dense ((n.min_aligned - minA) / 64).toNat
            ((n.max_aligned - n.min_aligned + 1) / 64).toNat,
           acc.2 + n.size) := by
      simp only [assembleNum, htype]
      rw [if_neg (show ¬(n.min_aligned < minA ∨ n.max_aligned > maxA) by omega)]
    rw [heq]
    refine ⟨length_orWords _ _ _ _, fun q => ?_⟩
    show getBit (orWords acc.1 n.data_dense ((n.min_aligned - minA) / 64).toNat
        ((n.max_aligned - n.min_aligned + 1) / 64).toNat) q
      = (getBit acc.1 q || n.mem (minA + (q : Int)))
    rw [getBit_orWords]
    have hmem : n.mem (minA + (q : Int))
        = (decide (n.min_aligned ≤ minA + (q : Int)) &&
            decide (minA + (q : Int) ≤ n.max_aligned) &&
            getBit n.data_dense ((minA + (q : Int)) - n.min_aligned).toNat) := by
      simp only [Node.mem, htype]
    rw [hmem]
    by_cases hq : n.min_aligned ≤ minA + (q : Int) ∧ minA + (q : Int) ≤ n.max_aligned
    · rw [decide_eq_true hq.1, decide_eq_true hq.2,
        decide_eq_true (show ((n.min_aligned - minA) / 64).toNat ≤ q / 64 ∧
          q / 64 < ((n.min_aligned - minA) / 64).toNat +
            ((n.max_aligned - n.min_aligned + 1) / 64).toNat ∧
          q / 64 < acc.1.length by
          refine ⟨by omega, by omega, by omega⟩),
        show q - 64 * ((n.min_aligned - minA) / 64).toNat
          = ((minA + (q : Int)) - n.min_aligned).toNat by omega]
      simp
    · have hne : (decide (n.min_aligned ≤ minA + (q : Int)) &&
          decide (minA + (q : Int) ≤ n.max_aligned)) = false := by
        rcases not_and_or.mp hq with hc | hc
        · rw [decide_eq_false hc, Bool.false_and]
        · rw [decide_eq_false hc, Bool.and_false]
      rw [hne, Bool.false_and,
        decide_eq_false (show ¬(((n.min_aligned - minA) / 64).toNat ≤ q / 64 ∧
          q / 64 < ((n.min_aligned - minA) / 64).toNat +
            ((n.max_aligned - n.min_aligned + 1) / 64).toNat ∧
          q / 64 < acc.1.length) by
          rcases not_and_or.mp hq with hc | hc <;> omega)]
      simp
  | Sparse =>
    obtain ⟨hssz, hsvals⟩ := hSparse htype
    have htake : n.data_sparse.take n.size.toNat = n.data_sparse :=
      take_size_of_eq _ _ hssz
    have heq : assembleNum min_doc max_doc minA maxA acc n
        = ((n.data_sparse.take n.size.toNat).foldl
            (fun ws v => bitmapSet ws (v - minA)) acc.1,
           acc.2 + n.size) := by
      simp only [assembleNum, htype]
      rw [if_neg (show ¬(n.min < min_doc ∨ n.max > max_doc) by omega)]
    rw [heq]
    refine ⟨?_, fun q => ?_⟩
    · show ((n.data_sparse.take n.size.toNat).foldl
          (fun ws v => bitmapSet ws (v - minA)) acc.1).length = acc.1.length
      exact length_setFold _ _ _
    · show getBit ((n.data_sparse.take n.size.toNat).foldl
          (fun ws v => bitmapSet ws (v - minA)) acc.1) q
        = (getBit acc.1 q || n.mem (minA + (q : Int)))
      rw [getBit_setFold, htake]
      have hmem : n.mem (minA + (q : Int))
          = (n.data_sparse.take n.size.toNat).contains (minA + (q : Int)) := by
        simp only [Node.mem, htype]
      rw [hmem, htake, contains_eq_decide_mem]
      have hcong : n.data_sparse.any
            (fun v => decide (0 ≤ v - minA) && decide ((v - minA).toNat = q) &&
              decide (q / 64 < acc.1.length))
          = n.data_sparse.any (fun v => decide (v = minA + (q : Int))) := by
        apply any_congr
        intro v hv
        have hvb := hsvals v hv
        by_cases hveq : v = minA + (q : Int)
        · rw [decide_eq_true hveq,
            decide_eq_true (show (0:Int) ≤ v - minA by omega),
            decide_eq_true (show (v - minA).toNat = q by omega),
            decide_eq_true (show q / 64 < acc.1.length by omega)]
          rfl
        · rw [decide_eq_false hveq]
          by_cases hv0 : (0:Int) ≤ v - minA
          · rw [decide_eq_false (show ¬((v - minA).toNat = q) by omega)]
            simp
          · rw [decide_eq_false hv0]
            simp
      rw [hcong, any_decide_eq_mem]

theorem assembleNum_fold (min_doc max_doc minA maxA : Int)
    (hm64 : minA % 64 = 0) (hM64 : (maxA + 1) % 64 = 0) :
    ∀ (lists : List Node) (acc : List Nat × Int),
      (∀ n ∈ lists, n.WFs ∧ minA ≤ n.min_aligned ∧ n.max_aligned ≤ maxA ∧
        min_doc ≤ n.min ∧ n.max ≤ max_doc) →
      acc.1.length = ((maxA - minA + 1) / 64).toNat →
      (lists.foldl (assembleNum min_doc max_doc minA maxA) acc).1.length
        = ((maxA - minA + 1) / 64).toNat ∧
      ∀ q : Nat, getBit (lists.foldl (assembleNum min_doc max_doc minA maxA) acc).1 q
        = (getBit acc.1 q || lists.any (fun n => n.mem (minA + (q : Int)))) := by
  intro lists
  induction lists with
  | nil =>
    intro acc _ hlen
    exact ⟨hlen, fun q => by simp⟩
  | cons n t ih =>
    intro acc hall hlen
    obtain ⟨hslen, hsbit⟩ := assembleNum_step min_doc max_doc minA maxA acc n
      (hall n (List.mem_cons_self n t)).1
      (hall n (List.mem_cons_self n t)).2.1
      (hall n (List.mem_cons_self n t)).2.2.1
      (hall n (List.mem_cons_self n t)).2.2.2.1
      (hall n (List.mem_cons_self n t)).2.2.2.2
      hm64 hM64 hlen
    have hfold : (n :: t).foldl (assembleNum min_doc max_doc minA maxA) acc
        = t.foldl (assembleNum min_doc max_doc minA maxA)
            (assembleNum min_doc max_doc minA maxA acc n) := rfl
    rw [hfold]
    obtain ⟨hrlen, hrbit⟩ := ih (assembleNum min_doc max_doc minA maxA acc n)
      (fun m hm => hall m (List.mem_cons_of_mem n hm))
      (by rw [hslen]; exact hlen)
    refine ⟨hrlen, fun q => ?_⟩
    rw [hrbit q, hsbit q, List.any_cons]
    cases getBit acc.1 q <;> cases n.mem (minA + (q : Int)) <;> simp

/-- The numeric search reads exactly the union of the collected nodes: bit
`d` of the returned bitmap is set iff some node in the scanned key range
holds `d`. -/
theorem SearchNum_bit (fri : FieldRangeIndex) (lower upper : List Nat)
    (hwfs : ∀ n ∈ collectNodes fri.store (ReverseEndian lower) (ReverseEndian upper),
      n.WFs)
    (d : Int) :
    resultBit (fri.SearchNum lower upper) d
      = (collectNodes fri.store (ReverseEndian lower) (ReverseEndian upper)).any
          (fun n => n.mem d) := by
  simp only [FieldRangeIndex.SearchNum]
  revert hwfs
  generalize collectNodes fri.store (ReverseEndian lower) (ReverseEndian upper) = lists
  intro hwfs
  by_cases hspan : lists.foldl (fun (a : Int) n => Max.max a n.max) 0
      - lists.foldl (fun (a : Int) n => Min.min a n.min) 2147483647 + 1 ≤ 0
  · rw [if_pos hspan]
    have hres : resultBit ((0 : Int), (none : Option RangeQueryResult)) d = false := rfl
    rw [hres]
    symm
    rw [List.any_eq_false]
    intro n hn hmemd
    have hb := node_mem_bounds n (hwfs n hn) d hmemd
    have hmin := foldl_min_le_mem lists (fun n => n.min) 2147483647 n hn
    have hmax := foldl_max_ge_mem lists (fun n => n.max) 0 n hn
    simp only [] at hmin hmax
    omega
  · rw [if_neg hspan]
    have hne : lists ≠ [] := by
      intro hnil
      subst hnil
      exact hspan (show (0 : Int) - 2147483647 + 1 ≤ 0 by omega)
    obtain ⟨n0, hn0⟩ := List.exists_mem_of_ne_nil lists hne
    obtain ⟨h0A0, hB0, hC0, hD0, hE0, hF0, hG0, _, _⟩ := hwfs n0 hn0
    have hminA_le := foldl_min_le_mem lists (fun n => n.min_aligned) 2147483647 n0 hn0
    have hmaxA_ge := foldl_max_ge_mem lists (fun n => n.max_aligned) 0 n0 hn0
    simp only [] at hminA_le hmaxA_ge
    have hm64 : (lists.foldl (fun (a : Int) n => Min.min a n.min_aligned) 2147483647) % 64
        = 0 := by
      rcases foldl_min_cases lists (fun n => n.min_aligned) 2147483647 with hcase |
        ⟨m, hm, hcase⟩
      · rw [hcase] at hminA_le
        omega
      · obtain ⟨hmA, hmB, _, _, _, _, _, _, _⟩ := hwfs m hm
        rw [hcase]
        exact hmB
    have hM64 : (lists.foldl (fun (a : Int) n => Max.max a n.max_aligned) 0 + 1) % 64
        = 0 := by
      have h63 : 63 ≤ lists.foldl (fun (a : Int) n => Max.max a n.max_aligned) 0 := by
        omega
      rcases foldl_max_cases lists (fun n => n.max_aligned) 0 with hcase |
        ⟨m, hm, hcase⟩
      · rw [hcase] at h63
        omega
      · obtain ⟨_, _, hmC, _, _, _, _, _, _⟩ := hwfs m hm
        rw [hcase]
        exact hmC
    have hall : ∀ n ∈ lists, n.WFs ∧
        lists.foldl (fun (a : Int) n => Min.min a n.min_aligned) 2147483647
          ≤ n.min_aligned ∧
        n.max_aligned ≤ lists.foldl (fun (a : Int) n => Max.max a n.max_aligned) 0 ∧
        lists.foldl (fun (a : Int) n => Min.min a n.min) 2147483647 ≤ n.min ∧
        n.max ≤ lists.foldl (fun (a : Int) n => Max.max a n.max) 0 :=
      fun n hn => ⟨hwfs n hn,
        foldl_min_le_mem lists (fun n => n.min_aligned) 2147483647 n hn,
        foldl_max_ge_mem lists (fun n => n.max_aligned) 0 n hn,
        foldl_min_le_mem lists (fun n => n.min) 2147483647 n hn,
        foldl_max_ge_mem lists (fun n => n.max) 0 n hn⟩
    obtain ⟨hwlen, hwbit⟩ := assembleNum_fold
      (lists.foldl (fun (a : Int) n => Min.min a n.min) 2147483647)
      (lists.foldl (fun (a : Int) n => Max.max a n.max) 0)
      (lists.foldl (fun (a : Int) n => Min.min a n.min_aligned) 2147483647)
      (lists.foldl (fun (a : Int) n => Max.max a n.max_aligned) 0)
      hm64 hM64 lists
      (bitmapCreate (lists.foldl (fun (a : Int) n => Max.max a n.max_aligned) 0
        - lists.foldl (fun (a : Int) n => Min.min a n.min_aligned) 2147483647 + 1),
       (0 : Int))
      hall
      (by simp [bitmapCreate])
    dsimp only at hwbit
    simp only [resultBit, RangeQueryResult.bit]
    by_cases hd : lists.foldl (fun (a : Int) n => Min.min a n.min_aligned) 2147483647 ≤ d
        ∧ d ≤ lists.foldl (fun (a : Int) n => Max.max a n.max_aligned) 0
    · rw [decide_eq_true hd.1, decide_eq_true hd.2, hwbit, getBit_bitmapCreate,
        show lists.foldl (fun (a : Int) n => Min.min a n.min_aligned) 2147483647
          + (((d - lists.foldl (fun (a : Int) n => Min.min a n.min_aligned)
              2147483647).toNat : Nat) : Int) = d by omega]
      simp
    · have hgb : (decide (lists.foldl (fun (a : Int) n => Min.min a n.min_aligned)
            2147483647 ≤ d) &&
          decide (d ≤ lists.foldl (fun (a : Int) n => Max.max a n.max_aligned) 0))
          = false := by
        rcases not_and_or.mp hd with hc | hc
        · rw [decide_eq_false hc, Bool.false_and]
        · rw [decide_eq_false hc, Bool.and_false]
      rw [hgb, Bool.false_and]
      symm
      rw [List.any_eq_false]
      intro n hn hmemd
      have hb := node_mem_bounds n (hwfs n hn) d hmemd
      obtain ⟨_, _, _, hhD, hhE, hhF, _, _, _⟩ := hwfs n hn
      have hminA_le2 := foldl_min_le_mem lists (fun n => n.min_aligned) 2147483647 n hn
      have hmaxA_ge2 := foldl_max_ge_mem lists (fun n => n.max_aligned) 0 n hn
      simp only [] at hminA_le2 hmaxA_ge2
      rcases not_and_or.mp hd with hc | hc <;> omega

theorem any_collect_roundtrip (kl ku k : List Nat) (doc : Int) (md : Node → Bool) :
    ∀ store : List (List Nat × Node),
      (∀ e ∈ store, e.1 = k → md ((e.2.Add doc).Delete doc).2 = md e.2) →
      (collectNodes ((store.map (fun e => if e.1 = k then (e.1, e.2.Add doc) else e)).map
          (fun e => if e.1 = k then (e.1, (e.2.Delete doc).2) else e)) kl ku).any md
        = (collectNodes store kl ku).any md := by
  intro store
  induction store with
  | nil =>
    intro _
    rfl
  | cons x t ih =>
    intro hmd
    simp only [List.map_cons]
    by_cases hek : x.1 = k
    · rw [show (if (if x.1 = k then (x.1, x.2.Add doc) else x).1 = k
          then ((if x.1 = k then (x.1, x.2.Add doc) else x).1,
            ((if x.1 = k then (x.1, x.2.Add doc) else x).2.Delete doc).2)
          else (if x.1 = k then (x.1, x.2.Add doc) else x))
        = (x.1, ((x.2.Add doc).Delete doc).2) from by
          rw [if_pos hek,
            if_pos (show ((x.1, x.2.Add doc) : List Nat × Node).1 = k from hek)]]
      rw [collectNodes_cons, collectNodes_cons,
        show ((x.1, ((x.2.Add doc).Delete doc).2) : List Nat × Node).1 = x.1 from rfl]
      by_cases hc : (keyLe kl x.1 && keyLe x.1 ku) = true
      · rw [if_pos hc, if_pos hc]
        simp only [List.any_cons]
        rw [show ((x.1, ((x.2.Add doc).Delete doc).2) : List Nat × Node).2
            = ((x.2.Add doc).Delete doc).2 from rfl]
        rw [hmd x (List.mem_cons_self x t) hek,
          ih (fun e he hk => hmd e (List.mem_cons_of_mem x he) hk)]
      · rw [if_neg hc, if_neg hc,
          ih (fun e he hk => hmd e (List.mem_cons_of_mem x he) hk)]
    · rw [show (if (if x.1 = k then (x.1, x.2.Add doc) else x).1 = k
          then ((if x.1 = k then (x.1, x.2.Add doc) else x).1,
            ((if x.1 = k then (x.1, x.2.Add doc) else x).2.Delete doc).2)
          else (if x.1 = k then (x.1, x.2.Add doc) else x)) = x from by
          rw [if_neg hek, if_neg hek]]
      rw [collectNodes_cons, collectNodes_cons]
      by_cases hc : (keyLe kl x.1 && keyLe x.1 ku) = true
      · rw [if_pos hc, if_pos hc]
        simp only [List.any_cons]
        rw [ih (fun e he hk => hmd e (List.mem_cons_of_mem x he) hk)]
      · rw [if_neg hc, if_neg hc,
          ih (fun e he hk => hmd e (List.mem_cons_of_mem x he) hk)]

/-- C7: for a numeric field and a doc id not currently stored under the
given key, `FieldRangeIndex::Add(key, doc)` followed by
`FieldRangeIndex::Delete(key, doc)` leaves the set of bits in the bitmap
returned by any numeric range `Search` identical to its state before the
insert. -/
theorem C7_add_delete_search_unchanged (fri : FieldRangeIndex) (key : List Nat)
    (doc : Int) (hnum : fri.is_numeric = true)
    (hwf : ∀ e ∈ fri.store, e.2.WF)
    (h0 : 0 ≤ doc) (h29 : doc < 2 ^ 29)
    (hfresh : ∀ e ∈ fri.store, e.1 = ReverseEndian key → e.2.mem doc = false)
    (lower upper : List Nat) (d : Int) :
    resultBit (((fri.Add key doc).Delete key doc).Search lower upper) d
      = resultBit (fri.Search lower upper) d := by
  have hadd : fri.Add key doc
      = { fri with store := insertToStore fri.store (ReverseEndian key) doc } := by
    unfold FieldRangeIndex.Add
    rw [if_pos hnum]
  have hdel : (fri.Add key doc).Delete key doc
      = { fri with store := deleteFromStore (insertToStore fri.store (ReverseEndian key) doc) (ReverseEndian key) doc } := by
    rw [hadd]
    unfold FieldRangeIndex.Delete
    rw [if_pos (show ({ fri with store := insertToStore fri.store (ReverseEndian key) doc } : FieldRangeIndex).is_numeric = true from hnum)]
  have hsearch : ∀ g : FieldRangeIndex, g.is_numeric = true →
      g.Search lower upper = g.SearchNum lower upper := by
    intro g hg
    unfold FieldRangeIndex.Search
    rw [if_neg (show ¬(g.is_numeric = false) by
      rw [hg]
      intro hcon
      cases hcon)]
  have hbase : ∀ n ∈ collectNodes fri.store (ReverseEndian lower) (ReverseEndian upper),
      n.WFs := by
    intro n hn
    obtain ⟨e, he, hee⟩ := mem_collectNodes fri.store _ _ n hn
    rw [← hee]
    exact (hwf e he).1
  by_cases hlook : (fri.store.lookup (ReverseEndian key)).isSome = true
  · have hins : insertToStore fri.store (ReverseEndian key) doc
        = fri.store.map
            (fun e => if e.1 = ReverseEndian key then (e.1, e.2.Add doc) else e) := by
      unfold insertToStore
      rw [if_pos hlook]
    have hSP : deleteFromStore (insertToStore fri.store (ReverseEndian key) doc)
          (ReverseEndian key) doc
        = (fri.store.map
            (fun e => if e.1 = ReverseEndian key then (e.1, e.2.Add doc) else e)).map
            (fun e => if e.1 = ReverseEndian key then (e.1, (e.2.Delete doc).2) else e) := by
      unfold deleteFromStore
      rw [hins]
    have hany : (collectNodes (deleteFromStore (insertToStore fri.store (ReverseEndian key) doc) (ReverseEndian key) doc)
          (ReverseEndian lower) (ReverseEndian upper)).any (fun n => n.mem d)
        = (collectNodes fri.store (ReverseEndian lower) (ReverseEndian upper)).any
            (fun n => n.mem d) := by
      rw [hSP]
      exact any_collect_roundtrip (ReverseEndian lower) (ReverseEndian upper)
        (ReverseEndian key) doc (fun n => n.mem d) fri.store
        (fun e he hek => (node_add_delete e.2 doc (hwf e he) h0 h29 (hfresh e he hek)).2 d)
    have hWFS : ∀ n ∈ collectNodes (deleteFromStore (insertToStore fri.store (ReverseEndian key) doc) (ReverseEndian key) doc)
        (ReverseEndian lower) (ReverseEndian upper), n.WFs := by
      intro n hn
      rw [hSP] at hn
      obtain ⟨e2, he2, hee⟩ := mem_collectNodes _ _ _ n hn
      obtain ⟨b, hb, hgb⟩ := List.mem_map.mp he2
      obtain ⟨e, he, hfeb⟩ := List.mem_map.mp hb
      by_cases hek : e.1 = ReverseEndian key
      · have hf : b = (e.1, e.2.Add doc) := by
          rw [← hfeb]
          show (if e.1 = ReverseEndian key then (e.1, e.2.Add doc) else e)
            = (e.1, e.2.Add doc)
          exact if_pos hek
        have hg2 : e2 = (e.1, ((e.2.Add doc).Delete doc).2) := by
          rw [← hgb, hf]
          show (if ((e.1, e.2.Add doc) : List Nat × Node).1 = ReverseEndian key
              then ((e.1, e.2.Add doc).1, ((e.1, e.2.Add doc).2.Delete doc).2)
              else (e.1, e.2.Add doc))
            = (e.1, ((e.2.Add doc).Delete doc).2)
          rw [if_pos (show ((e.1, e.2.Add doc) : List Nat × Node).1
            = ReverseEndian key from hek)]
        have hnn : n = ((e.2.Add doc).Delete doc).2 := by
          rw [← hee, hg2]
        rw [hnn]
        exact (node_add_delete e.2 doc (hwf e he) h0 h29 (hfresh e he hek)).1
      · have hf : b = e := by
          rw [← hfeb]
          show (if e.1 = ReverseEndian key then (e.1, e.2.Add doc) else e) = e
          exact if_neg hek
        have hg2 : e2 = e := by
          rw [← hgb, hf]
          show (if e.1 = ReverseEndian key then (e.1, (e.2.Delete doc).2) else e) = e
          exact if_neg hek
        have hnn : n = e.2 := by
          rw [← hee, hg2]
        rw [hnn]
        exact (hwf e he).1
    rw [hdel,
      hsearch { fri with store := deleteFromStore (insertToStore fri.store (ReverseEndian key) doc) (ReverseEndian key) doc }
        (show ({ fri with store := deleteFromStore (insertToStore fri.store (ReverseEndian key) doc) (ReverseEndian key) doc } : FieldRangeIndex).is_numeric = true from hnum),
      hsearch fri hnum,
      SearchNum_bit { fri with store := deleteFromStore (insertToStore fri.store (ReverseEndian key) doc) (ReverseEndian key) doc }
        lower upper hWFS d,
      SearchNum_bit fri lower upper hbase d]
    exact hany
  · have hnone : fri.store.lookup (ReverseEndian key) = none :=
      Option.not_isSome_iff_eq_none.mp hlook
    have hkeys := lookup_none_keys (ReverseEndian key) fri.store hnone
    have hN := init_add_delete doc h0 h29
    have hins : insertToStore fri.store (ReverseEndian key) doc
        = fri.store ++ [(ReverseEndian key, Node.init.Add doc)] := by
      unfold insertToStore
      rw [if_neg hlook]
    have hmapone : List.map
          (fun e => if e.1 = ReverseEndian key then (e.1, (e.2.Delete doc).2) else e)
          [(ReverseEndian key, Node.init.Add doc)]
        = [(ReverseEndian key, ((Node.init.Add doc).Delete doc).2)] := by
      show [(if ((ReverseEndian key, Node.init.Add doc) : List Nat × Node).1
            = ReverseEndian key
          then ((ReverseEndian key, Node.init.Add doc).1,
            ((ReverseEndian key, Node.init.Add doc).2.Delete doc).2)
          else (ReverseEndian key, Node.init.Add doc))]
        = [(ReverseEndian key, ((Node.init.Add doc).Delete doc).2)]
      rw [if_pos (show ((ReverseEndian key, Node.init.Add doc) : List Nat × Node).1
        = ReverseEndian key from rfl)]
    have hSP : deleteFromStore (insertToStore fri.store (ReverseEndian key) doc)
          (ReverseEndian key) doc
        = fri.store.map
            (fun e => if e.1 = ReverseEndian key then (e.1, (e.2.Delete doc).2) else e)
          ++ [(ReverseEndian key, ((Node.init.Add doc).Delete doc).2)] := by
      unfold deleteFromStore
      rw [hins, List.map_append, hmapone]
    have htail : (collectNodes [(ReverseEndian key, ((Node.init.Add doc).Delete doc).2)]
          (ReverseEndian lower) (ReverseEndian upper)).any (fun n => n.mem d)
        = false := by
      rw [List.any_eq_false]
      intro m hm hmt
      obtain ⟨e, he, hee⟩ := mem_collectNodes _ _ _ m hm
      have he2 : e = (ReverseEndian key, ((Node.init.Add doc).Delete doc).2) :=
        List.eq_of_mem_singleton he
      rw [← hee, he2] at hmt
      rw [show ((ReverseEndian key, ((Node.init.Add doc).Delete doc).2)
          : List Nat × Node).2 = ((Node.init.Add doc).Delete doc).2 from rfl,
        hN.2 d] at hmt
      cases hmt
    have hany : (collectNodes (deleteFromStore (insertToStore fri.store (ReverseEndian key) doc) (ReverseEndian key) doc)
          (ReverseEndian lower) (ReverseEndian upper)).any (fun n => n.mem d)
        = (collectNodes fri.store (ReverseEndian lower) (ReverseEndian upper)).any
            (fun n => n.mem d) := by
      rw [hSP, collectNodes_append, List.any_append, htail, Bool.or_false]
      exact any_collect_map (ReverseEndian lower) (ReverseEndian upper)
        (fun e => if e.1 = ReverseEndian key then (e.1, (e.2.Delete doc).2) else e)
        (fun n => n.mem d) fri.store
        (fun e he => by
          show (if e.1 = ReverseEndian key then (e.1, (e.2.Delete doc).2) else e).1 = e.1
          rw [if_neg (hkeys e he)])
        (fun e he => by
          show (if e.1 = ReverseEndian key
              then (e.1, (e.2.Delete doc).2) else e).2.mem d = e.2.mem d
          rw [if_neg (hkeys e he)])
    have hWFS : ∀ n ∈ collectNodes (deleteFromStore (insertToStore fri.store (ReverseEndian key) doc) (ReverseEndian key) doc)
        (ReverseEndian lower) (ReverseEndian upper), n.WFs := by
      intro n hn
      rw [hSP, collectNodes_append] at hn
      rcases List.mem_append.mp hn with hn1 | hn2
      · obtain ⟨e2, he2, hee⟩ := mem_collectNodes _ _ _ n hn1
        obtain ⟨e, he, hfe⟩ := List.mem_map.mp he2
        have hfe2 : e = e2 := by
          rw [← hfe]
          show e = if e.1 = ReverseEndian key then (e.1, (e.2.Delete doc).2) else e
          rw [if_neg (hkeys e he)]
        rw [← hee, ← hfe2]
        exact (hwf e he).1
      · obtain ⟨e, he, hee⟩ := mem_collectNodes _ _ _ n hn2
        have he2 : e = (ReverseEndian key, ((Node.init.Add doc).Delete doc).2) :=
          List.eq_of_mem_singleton he
        rw [← hee, he2]
        exact hN.1
    rw [hdel,
      hsearch { fri with store := deleteFromStore (insertToStore fri.store (ReverseEndian key) doc) (ReverseEndian key) doc }
        (show ({ fri with store := deleteFromStore (insertToStore fri.store (ReverseEndian key) doc) (ReverseEndian key) doc } : FieldRangeIndex).is_numeric = true from hnum),
      hsearch fri hnum,
      SearchNum_bit { fri with store := deleteFromStore (insertToStore fri.store (ReverseEndian key) doc) (ReverseEndian key) doc }
        lower upper hWFS d,
      SearchNum_bit fri lower upper hbase d]
    exact hany

theorem C7_add_delete_search_unchanged_witness :
    resultBit (((friNum.Add key42 10).Delete key42 10).Search key42 key50) 10
      = resultBit (friNum.Search key42 key50) 10 :=
  C7_add_delete_search_unchanged friNum key42 10 rfl
    (fun _ he => nomatch he)
    (by decide) (by decide)
    (fun _ he _ => nomatch he)
    key42 key50 10

end TigGamma
